import Mathlib

/-!
# acton-lmdb: the binding layer of `src/lmdb.ext.c`

The C file is a thin layer over the LMDB engine.  Every function of the file is
embedded as a *program* over engine calls (`Prog`): a tree whose nodes are the
calls the C function makes, in order, each followed by the code that inspects
the call's status code.  A program is executed against an engine (`Prog.run`),
which is any function from a call and an engine state to a response and a new
engine state; the run returns the result (value or raised `lmdbQ_LMDBError`),
the final engine state and the list of calls made with their responses.

Statements that hold for every engine are proved for an arbitrary engine.
Statements about store contents are proved against `lmdb`, a reference model of
the engine (ordered store, snapshot transactions, cursors, failure script).
-/

namespace ActonLmdb

/-! ## Data -/

/-- A byte sequence (`B_bytes`, `MDB_val`): bytes as naturals below 256. -/
abbrev Bytes := List Nat

/-- The bytes of an ASCII text, for writing keys in examples. -/
def bytesOf (s : String) : Bytes := s.toList.map Char.toNat

/-- Engine status code "key/data pair not found" (`MDB_NOTFOUND` in lmdb.h). -/
def MDB_NOTFOUND : Int := -30798

/-- Environment flag "don't use thread-local storage" (`MDB_NOTLS` in lmdb.h). -/
def MDB_NOTLS : Nat := 0x200000

/-- Transaction flag "read only" (`MDB_RDONLY` in lmdb.h). -/
def MDB_RDONLY : Nat := 0x20000

/-- Database flag "create if missing" (`MDB_CREATE` in lmdb.h). -/
def MDB_CREATE : Nat := 0x40000

/-- The cursor operations of `MDB_cursor_op` that the file uses. -/
inductive MDB_cursor_op where
  | MDB_FIRST
  | MDB_LAST
  | MDB_NEXT
  | MDB_PREV
  | MDB_SET_RANGE
  deriving DecidableEq, Repr

/-- The text `mdb_strerror(rc)`, kept symbolic: the message of status `rc`. -/
structure ErrMsg where
  strerror : Int
  deriving DecidableEq, Repr

/-- The engine's message for a status code. -/
def mdb_strerror (rc : Int) : ErrMsg := ⟨rc⟩

/-- The exception `lmdbQ_LMDBError` with its message; the only error kind the
file raises. -/
structure LMDBError where
  msg : ErrMsg
  deriving DecidableEq, Repr

/-- The cast `(size_t)` of a 64-bit platform. -/
def cast_size_t (i : Int) : Nat := (i % 2 ^ 64).toNat

/-- The cast `(MDB_dbi)`, an `unsigned int`. -/
def cast_MDB_dbi (i : Int) : Nat := (i % 2 ^ 32).toNat

/-- The cast `(int)` of an `unsigned int`. -/
def cast_int (n : Nat) : Int :=
  if n % 2 ^ 32 < 2 ^ 31 then ((n % 2 ^ 32 : Nat) : Int) else ((n % 2 ^ 32 : Nat) : Int) - 2 ^ 32

/-- C `memcmp` over the first `n` bytes.  Reading past the end of a buffer is
undefined in C; here it compares equal, so nothing can be concluded from it. -/
def memcmp : Bytes → Bytes → Nat → Int
  | _, _, 0 => 0
  | x :: xs, y :: ys, n + 1 =>
    if x < y then -1 else if y < x then 1 else memcmp xs ys n
  | _, _, _ + 1 => 0

/-! ## Engine calls -/

/-- The calls the file makes to the engine and to the C library, with the
arguments it passes (pointers are integers; `NULL` arguments are left out). -/
inductive Call where
  | mdb_env_create
  | mdb_env_set_mapsize (env : Int) (size : Nat)
  | mkdir (path : String) (mode : Nat)
  | mdb_env_open (env : Int) (path : String) (flags : Nat) (mode : Nat)
  | mdb_env_close (env : Int)
  | mdb_env_sync (env : Int) (force : Int)
  | mdb_env_get_maxkeysize (env : Int)
  | mdb_txn_begin (env : Int) (flags : Nat)
  | mdb_txn_commit (txn : Int)
  | mdb_txn_abort (txn : Int)
  | mdb_dbi_open (txn : Int) (flags : Nat)
  | mdb_put (txn : Int) (dbi : Nat) (key val : Bytes) (flags : Nat)
  | mdb_get (txn : Int) (dbi : Nat) (key : Bytes)
  | mdb_del (txn : Int) (dbi : Nat) (key : Bytes)
  | mdb_cursor_open (txn : Int) (dbi : Nat)
  | mdb_cursor_close (cursor : Int)
  | mdb_cursor_get (cursor : Int) (key : Bytes) (op : MDB_cursor_op)
  | mdb_cursor_put (cursor : Int) (key val : Bytes) (flags : Nat)
  | mdb_cursor_del (cursor : Int) (flags : Nat)
  deriving DecidableEq, Repr

/-- What a call gives back: the `int` it returns and its out-parameters
(`handle`: the environment, transaction or cursor pointer; `dbi`; `key` and
`val`: the `MDB_val`s written by the call). -/
structure Resp where
  rc : Int
  handle : Int
  dbi : Nat
  key : Bytes
  val : Bytes
  deriving DecidableEq, Repr

/-- One executed call with its response. -/
abbrev Event := Call × Resp

/-- A program over engine calls: return a value, raise `lmdbQ_LMDBError`, or
make a call and continue with its response. -/
inductive Prog (α : Type) where
  | ret : α → Prog α
  | RAISE : LMDBError → Prog α
  | call : Call → (Resp → Prog α) → Prog α

/-- Sequencing: run `p`, then `f` on its value; a raise in `p` propagates. -/
def Prog.bind {α β : Type} : Prog α → (α → Prog β) → Prog β
  | .ret a, f => f a
  | .RAISE e, _ => .RAISE e
  | .call c k, f => .call c (fun r => (k r).bind f)

/-- Exception handler: run `p`; if it raises `e`, continue with `h e`. -/
def Prog.tryCatch {α : Type} : Prog α → (LMDBError → Prog α) → Prog α
  | .ret a, _ => .ret a
  | .RAISE e, h => h e
  | .call c k, h => .call c (fun r => (k r).tryCatch h)

/-- The result of running a program. -/
structure Outcome (σ α : Type) where
  result : Except LMDBError α
  state : σ
  events : List Event

/-- Record one more executed call in front of an outcome. -/
def Outcome.push {σ α : Type} (ev : Event) (o : Outcome σ α) : Outcome σ α :=
  ⟨o.result, o.state, ev :: o.events⟩

/-- Run a program against an engine `h` from engine state `s`. -/
def Prog.run {σ α : Type} (h : Call → σ → Resp × σ) : Prog α → σ → Outcome σ α
  | .ret a, s => ⟨.ok a, s, []⟩
  | .RAISE e, s => ⟨.error e, s, []⟩
  | .call c k, s => ((k (h c s).1).run h (h c s).2).push (c, (h c s).1)

/-! ## The functions of `lmdb.ext.c` -/

/-- The function `lmdbQ__env_create_and_open`; returns the tuple
(environment pointer, dbi, maximum key size). -/
def lmdbQ__env_create_and_open (path : String) (max_size : Int) : Prog (Int × Int × Int) :=
  .call .mdb_env_create fun r =>
  let env := r.handle
  if r.rc ≠ 0 then .RAISE ⟨mdb_strerror r.rc⟩ else
  .call (.mdb_env_set_mapsize env (cast_size_t max_size)) fun r =>
  if r.rc ≠ 0 then
    .call (.mdb_env_close env) fun _ => .RAISE ⟨mdb_strerror r.rc⟩
  else
  let cpath := path
  .call (.mkdir cpath 0o755) fun _ =>
  .call (.mdb_env_open env cpath MDB_NOTLS 0o664) fun r =>
  if r.rc ≠ 0 then
    .call (.mdb_env_close env) fun _ => .RAISE ⟨mdb_strerror r.rc⟩
  else
  .call (.mdb_txn_begin env 0) fun r =>
  let txn := r.handle
  if r.rc ≠ 0 then
    .call (.mdb_env_close env) fun _ => .RAISE ⟨mdb_strerror r.rc⟩
  else
  .call (.mdb_dbi_open txn MDB_CREATE) fun r =>
  let dbi := r.dbi
  if r.rc ≠ 0 then
    .call (.mdb_txn_abort txn) fun _ =>
    .call (.mdb_env_close env) fun _ => .RAISE ⟨mdb_strerror r.rc⟩
  else
  .call (.mdb_txn_commit txn) fun r =>
  if r.rc ≠ 0 then
    .call (.mdb_env_close env) fun _ => .RAISE ⟨mdb_strerror r.rc⟩
  else
  .call (.mdb_env_get_maxkeysize env) fun r =>
  let max_key_size := r.rc
  .ret (env, cast_int dbi, max_key_size)

/-- The function `lmdbQ__put`. -/
def lmdbQ__put (env_ptr dbi : Int) (key value : Bytes) : Prog Unit :=
  let env := env_ptr
  .call (.mdb_txn_begin env 0) fun r =>
  let txn := r.handle
  if r.rc ≠ 0 then .RAISE ⟨mdb_strerror r.rc⟩ else
  .call (.mdb_put txn (cast_MDB_dbi dbi) key value 0) fun r =>
  if r.rc ≠ 0 then
    .call (.mdb_txn_abort txn) fun _ => .RAISE ⟨mdb_strerror r.rc⟩
  else
  .call (.mdb_txn_commit txn) fun r =>
  if r.rc ≠ 0 then .RAISE ⟨mdb_strerror r.rc⟩ else
  .ret ()

/-- The function `lmdbQ__get`; `none` is `B_None`. -/
def lmdbQ__get (env_ptr dbi : Int) (key : Bytes) : Prog (Option Bytes) :=
  let env := env_ptr
  .call (.mdb_txn_begin env MDB_RDONLY) fun r =>
  let txn := r.handle
  if r.rc ≠ 0 then .RAISE ⟨mdb_strerror r.rc⟩ else
  .call (.mdb_get txn (cast_MDB_dbi dbi) key) fun r =>
  if r.rc = MDB_NOTFOUND then
    .call (.mdb_txn_abort txn) fun _ => .ret none
  else if r.rc ≠ 0 then
    .call (.mdb_txn_abort txn) fun _ => .RAISE ⟨mdb_strerror r.rc⟩
  else
  let result := r.val
  .call (.mdb_txn_abort txn) fun _ =>
  .ret (some result)

/-- The function `lmdbQ__delete`. -/
def lmdbQ__delete (env_ptr dbi : Int) (key : Bytes) : Prog Bool :=
  let env := env_ptr
  .call (.mdb_txn_begin env 0) fun r =>
  let txn := r.handle
  if r.rc ≠ 0 then .RAISE ⟨mdb_strerror r.rc⟩ else
  .call (.mdb_del txn (cast_MDB_dbi dbi) key) fun r =>
  if r.rc = MDB_NOTFOUND then
    .call (.mdb_txn_abort txn) fun _ => .ret false
  else if r.rc ≠ 0 then
    .call (.mdb_txn_abort txn) fun _ => .RAISE ⟨mdb_strerror r.rc⟩
  else
  .call (.mdb_txn_commit txn) fun r =>
  if r.rc ≠ 0 then .RAISE ⟨mdb_strerror r.rc⟩ else
  .ret true

/-- The function `lmdbQ__close` (its `dbi` argument is unused). -/
def lmdbQ__close (env_ptr _dbi : Int) : Prog Unit :=
  let env := env_ptr
  .call (.mdb_env_sync env 1) fun r =>
  if r.rc ≠ 0 then
    .call (.mdb_env_close env) fun _ => .RAISE ⟨mdb_strerror r.rc⟩
  else
  .call (.mdb_env_close env) fun _ =>
  .ret ()

/-- The function `lmdbQ__txn_begin_read`. -/
def lmdbQ__txn_begin_read (env_ptr : Int) : Prog Int :=
  let env := env_ptr
  .call (.mdb_txn_begin env MDB_RDONLY) fun r =>
  if r.rc ≠ 0 then .RAISE ⟨mdb_strerror r.rc⟩ else
  .ret r.handle

/-- The function `lmdbQ__txn_begin_write`. -/
def lmdbQ__txn_begin_write (env_ptr : Int) : Prog Int :=
  let env := env_ptr
  .call (.mdb_txn_begin env 0) fun r =>
  if r.rc ≠ 0 then .RAISE ⟨mdb_strerror r.rc⟩ else
  .ret r.handle

/-- The function `lmdbQ__txn_commit`. -/
def lmdbQ__txn_commit (txn_ptr : Int) : Prog Unit :=
  let txn := txn_ptr
  .call (.mdb_txn_commit txn) fun r =>
  if r.rc ≠ 0 then .RAISE ⟨mdb_strerror r.rc⟩ else
  .ret ()

/-- The function `lmdbQ__txn_abort`. -/
def lmdbQ__txn_abort (txn_ptr : Int) : Prog Unit :=
  let txn := txn_ptr
  .call (.mdb_txn_abort txn) fun _ =>
  .ret ()

/-- The function `lmdbQ__txn_put`. -/
def lmdbQ__txn_put (txn_ptr dbi : Int) (key value : Bytes) : Prog Unit :=
  let txn := txn_ptr
  .call (.mdb_put txn (cast_MDB_dbi dbi) key value 0) fun r =>
  if r.rc ≠ 0 then .RAISE ⟨mdb_strerror r.rc⟩ else
  .ret ()

/-- The function `lmdbQ__txn_get`. -/
def lmdbQ__txn_get (txn_ptr dbi : Int) (key : Bytes) : Prog (Option Bytes) :=
  let txn := txn_ptr
  .call (.mdb_get txn (cast_MDB_dbi dbi) key) fun r =>
  if r.rc = MDB_NOTFOUND then .ret none
  else if r.rc ≠ 0 then .RAISE ⟨mdb_strerror r.rc⟩
  else .ret (some r.val)

/-- The function `lmdbQ__txn_delete`. -/
def lmdbQ__txn_delete (txn_ptr dbi : Int) (key : Bytes) : Prog Bool :=
  let txn := txn_ptr
  .call (.mdb_del txn (cast_MDB_dbi dbi) key) fun r =>
  if r.rc = MDB_NOTFOUND then .ret false
  else if r.rc ≠ 0 then .RAISE ⟨mdb_strerror r.rc⟩
  else .ret true

/-- The function `lmdbQ__cursor_open`. -/
def lmdbQ__cursor_open (txn_ptr dbi : Int) : Prog Int :=
  let txn := txn_ptr
  .call (.mdb_cursor_open txn (cast_MDB_dbi dbi)) fun r =>
  if r.rc ≠ 0 then .RAISE ⟨mdb_strerror r.rc⟩ else
  .ret r.handle

/-- The function `lmdbQ__cursor_close`. -/
def lmdbQ__cursor_close (cursor_ptr : Int) : Prog Unit :=
  let cursor := cursor_ptr
  .call (.mdb_cursor_close cursor) fun _ =>
  .ret ()

/-- The function `lmdbQ__cursor_first`; its `key` is not set on entry. -/
def lmdbQ__cursor_first (cursor_ptr : Int) : Prog (Option (Bytes × Bytes)) :=
  let cursor := cursor_ptr
  .call (.mdb_cursor_get cursor [] .MDB_FIRST) fun r =>
  if r.rc = MDB_NOTFOUND then .ret none
  else if r.rc ≠ 0 then .RAISE ⟨mdb_strerror r.rc⟩
  else
  .ret (some (r.key, r.val))

/-- The function `lmdbQ__cursor_last`; its `key` is not set on entry. -/
def lmdbQ__cursor_last (cursor_ptr : Int) : Prog (Option (Bytes × Bytes)) :=
  let cursor := cursor_ptr
  .call (.mdb_cursor_get cursor [] .MDB_LAST) fun r =>
  if r.rc = MDB_NOTFOUND then .ret none
  else if r.rc ≠ 0 then .RAISE ⟨mdb_strerror r.rc⟩
  else
  .ret (some (r.key, r.val))

/-- The function `lmdbQ__cursor_next`; its `key` is not set on entry. -/
def lmdbQ__cursor_next (cursor_ptr : Int) : Prog (Option (Bytes × Bytes)) :=
  let cursor := cursor_ptr
  .call (.mdb_cursor_get cursor [] .MDB_NEXT) fun r =>
  if r.rc = MDB_NOTFOUND then .ret none
  else if r.rc ≠ 0 then .RAISE ⟨mdb_strerror r.rc⟩
  else
  .ret (some (r.key, r.val))

/-- The function `lmdbQ__cursor_prev`; its `key` is not set on entry. -/
def lmdbQ__cursor_prev (cursor_ptr : Int) : Prog (Option (Bytes × Bytes)) :=
  let cursor := cursor_ptr
  .call (.mdb_cursor_get cursor [] .MDB_PREV) fun r =>
  if r.rc = MDB_NOTFOUND then .ret none
  else if r.rc ≠ 0 then .RAISE ⟨mdb_strerror r.rc⟩
  else
  .ret (some (r.key, r.val))

/-- The function `lmdbQ__cursor_seek`. -/
def lmdbQ__cursor_seek (cursor_ptr : Int) (seek_key : Bytes) : Prog (Option (Bytes × Bytes)) :=
  let cursor := cursor_ptr
  .call (.mdb_cursor_get cursor seek_key .MDB_SET_RANGE) fun r =>
  if r.rc = MDB_NOTFOUND then .ret none
  else if r.rc ≠ 0 then .RAISE ⟨mdb_strerror r.rc⟩
  else
  .ret (some (r.key, r.val))

/-- The function `lmdbQ__cursor_seek_prefix`. -/
def lmdbQ__cursor_seek_prefix (cursor_ptr : Int) (pfx : Bytes) :
    Prog (Option (Bytes × Bytes)) :=
  let cursor := cursor_ptr
  .call (.mdb_cursor_get cursor pfx .MDB_SET_RANGE) fun r =>
  if r.rc = MDB_NOTFOUND then .ret none
  else if r.rc ≠ 0 then .RAISE ⟨mdb_strerror r.rc⟩
  else
  if r.key.length ≥ pfx.length ∧ memcmp r.key pfx pfx.length = 0 then
    .ret (some (r.key, r.val))
  else
  .ret none

/-- The function `lmdbQ__cursor_put`. -/
def lmdbQ__cursor_put (cursor_ptr : Int) (key value : Bytes) : Prog Unit :=
  let cursor := cursor_ptr
  .call (.mdb_cursor_put cursor key value 0) fun r =>
  if r.rc ≠ 0 then .RAISE ⟨mdb_strerror r.rc⟩ else
  .ret ()

/-- The function `lmdbQ__cursor_delete`. -/
def lmdbQ__cursor_delete (cursor_ptr : Int) : Prog Unit :=
  let cursor := cursor_ptr
  .call (.mdb_cursor_del cursor 0) fun r =>
  if r.rc ≠ 0 then .RAISE ⟨mdb_strerror r.rc⟩ else
  .ret ()

/-! ## Reference model of the engine

The engine (liblmdb, declared in lmdb.h) is linked by the repository but is not
part of it.  The model below follows the specification's description of the
engine and lmdb.h: one store directory, a committed store ordered by key,
transactions that work on a private view taken at begin and replace the store
at commit, cursors that sit on a key of their transaction's view and, as in
the specification's cursor state machine, are unpositioned after a miss, and a
script of injected failures from which every fallible call takes one entry
(size limits, full map, full reader table, I/O failures, and every failure of
`mkdir` other than "the directory exists" and "the parent directory is
missing" are represented by the script). -/

/-- The content of the default database: entries in ascending key order. -/
abbrev Store := List (Bytes × Bytes)

/-- The engine's key order: unsigned bytes, lexicographic, shorter is less. -/
def keyLt : Bytes → Bytes → Bool
  | [], [] => false
  | [], _ :: _ => true
  | _ :: _, [] => false
  | x :: xs, y :: ys => if x < y then true else if y < x then false else keyLt xs ys

/-- Point lookup. -/
def storeGet : Store → Bytes → Option Bytes
  | [], _ => none
  | (k', v') :: rest, k => if k' = k then some v' else storeGet rest k

/-- Insert or overwrite, keeping the key order. -/
def storePut : Store → Bytes → Bytes → Store
  | [], k, v => [(k, v)]
  | (k', v') :: rest, k, v =>
    if k' = k then (k, v) :: rest
    else if keyLt k k' then (k, v) :: (k', v') :: rest
    else (k', v') :: storePut rest k v

/-- Remove a key. -/
def storeDel : Store → Bytes → Store
  | [], _ => []
  | (k', v') :: rest, k => if k' = k then storeDel rest k else (k', v') :: storeDel rest k

/-- The entry with the smallest key. -/
def storeFirst (st : Store) : Option (Bytes × Bytes) := st.head?

/-- The entry with the largest key. -/
def storeLast (st : Store) : Option (Bytes × Bytes) := st.getLast?

/-- The first entry whose key is greater than or equal to `k`. -/
def storeSeek (st : Store) (k : Bytes) : Option (Bytes × Bytes) :=
  st.find? (fun e => !keyLt e.1 k)

/-- The first entry whose key is greater than `k`. -/
def storeNext (st : Store) (k : Bytes) : Option (Bytes × Bytes) :=
  st.find? (fun e => keyLt k e.1)

/-- The last entry whose key is less than `k`. -/
def storePrev (st : Store) (k : Bytes) : Option (Bytes × Bytes) :=
  (st.filter (fun e => keyLt e.1 k)).getLast?

/-- Table lookup by handle. -/
def find {β : Type} (h : Int) : List (Int × β) → Option β
  | [] => none
  | (h', b) :: rest => if h' = h then some b else find h rest

/-- Replace the record of a handle. -/
def replace {β : Type} (h : Int) (b : β) : List (Int × β) → List (Int × β)
  | [] => []
  | (h', b') :: rest => if h' = h then (h, b) :: rest else (h', b') :: replace h b rest

/-- Drop the record of a handle. -/
def remove {β : Type} (h : Int) : List (Int × β) → List (Int × β)
  | [] => []
  | (h', b') :: rest => if h' = h then rest else (h', b') :: remove h rest

/-- An environment handle: whether it has been opened, its map size, and the
flags it was opened with. -/
structure EnvRec where
  opened : Bool
  mapsize : Nat
  flags : Nat
  deriving DecidableEq, Repr

/-- A live transaction: its environment, its mode, and its view of the store
(the snapshot taken at begin plus its own writes). -/
structure TxnRec where
  env : Int
  rdonly : Bool
  view : Store
  deriving DecidableEq, Repr

/-- A live cursor: its transaction and the key it is positioned on (`none`:
not positioned). -/
structure CurRec where
  txn : Int
  pos : Option Bytes
  deriving DecidableEq, Repr

/-- The state of the engine and of the store directory. -/
structure LMDB where
  dirs : List String
  store : Store
  envs : List (Int × EnvRec)
  txns : List (Int × TxnRec)
  cursors : List (Int × CurRec)
  fresh : Int
  faults : List Int
  deriving DecidableEq, Repr

/-- Status `EINVAL` of errno.h. -/
def EINVAL : Int := 22

/-- Status `ENOENT` of errno.h. -/
def ENOENT : Int := 2

/-- Status `EACCES` of errno.h. -/
def EACCES : Int := 13

/-- Status `EDEADLK` of errno.h: what the sequential model answers where the
engine would block a second writer. -/
def EDEADLK : Int := 35

/-- The main database of an environment (`MAIN_DBI` in the engine). -/
def MAIN_DBI : Nat := 1

/-- The engine's default maximum key size. -/
def MAXKEYSIZE : Int := 511

/-- A script entry is a failure when it is neither success nor not-found. -/
def isFault (rc : Int) : Bool := rc ≠ 0 && rc ≠ MDB_NOTFOUND

/-- The failure injected into the next fallible call, if any. -/
def pending (s : LMDB) : Option Int :=
  match s.faults with
  | [] => none
  | f :: _ => if isFault f then some f else none

/-- Consume one script entry. -/
def advance (s : LMDB) : LMDB := { s with faults := s.faults.tail }

/-- No failure is scripted. -/
def calm (s : LMDB) : Bool := s.faults.all (fun f => !isFault f)

/-- Whether a power-of-two flag is set in a flag word. -/
def hasFlag (flags flag : Nat) : Bool := (flags / flag) % 2 == 1

/-- End a transaction: drop it and its cursors. -/
def endTxn (txn : Int) (s : LMDB) : LMDB :=
  { s with txns := remove txn s.txns,
           cursors := s.cursors.filter (fun c => c.2.txn ≠ txn) }

/-- Whether a write transaction is live on an environment. -/
def writerLive (env : Int) (s : LMDB) : Bool :=
  s.txns.any (fun t => !t.2.rdonly && t.2.env == env)

/-- A response that carries only a status code. -/
def status (rc : Int) : Resp := ⟨rc, 0, 0, [], []⟩

/-- Which calls return a status (the others are `void` or cannot fail). -/
def fallible : Call → Bool
  | .mdb_env_close _ => false
  | .mdb_env_get_maxkeysize _ => false
  | .mdb_txn_abort _ => false
  | .mdb_cursor_close _ => false
  | _ => true

/-- The directory that must exist for `mkdir path` to succeed: the part of
`path` before its last '/', or `none` when `path` has no '/' or only a leading
one (the parent is then the working directory or the root). -/
def parentDir (path : String) : Option String :=
  match ((path.toList.reverse.dropWhile (fun ch => ch ≠ '/')).drop 1).reverse with
  | [] => none
  | cs => some (String.mk cs)

/-- Cursor navigation inside a view: the entry the operation moves to. -/
def navigate (view : Store) (pos : Option Bytes) (key : Bytes) :
    MDB_cursor_op → Option (Bytes × Bytes)
  | .MDB_FIRST => storeFirst view
  | .MDB_LAST => storeLast view
  | .MDB_NEXT =>
    match pos with
    | none => storeFirst view
    | some k => storeNext view k
  | .MDB_PREV =>
    match pos with
    | none => storeLast view
    | some k => storePrev view k
  | .MDB_SET_RANGE => storeSeek view key

/-- Modelled from the spec: the engine calls of liblmdb, which the repository
links but does not contain.  This is a call that meets no injected failure:
point operations and cursor navigation act on the transaction's view in key
order (§3, §4.3, §4.4 of the specification), commit replaces the committed
store by the view of a write transaction, abort discards the view, a second
writer is refused where the engine would block, and a handle that is not live
is answered with `EINVAL`. -/
def lmdbOk : Call → LMDB → Resp × LMDB
  | .mdb_env_create, s =>
    (⟨0, s.fresh, 0, [], []⟩,
     { s with envs := (s.fresh, ⟨false, 1048576, 0⟩) :: s.envs, fresh := s.fresh + 1 })
  | .mdb_env_set_mapsize env size, s =>
    match find env s.envs with
    | none => (status EINVAL, s)
    | some e => (status 0, { s with envs := replace env { e with mapsize := size } s.envs })
  | .mkdir path _, s =>
    if path ∈ s.dirs then (status (-1), s)
    else
      match parentDir path with
      | none => (status 0, { s with dirs := path :: s.dirs })
      | some parent =>
        if parent ∈ s.dirs then (status 0, { s with dirs := path :: s.dirs })
        else (status (-1), s)
  | .mdb_env_open env path flags _, s =>
    match find env s.envs with
    | none => (status EINVAL, s)
    | some e =>
      if e.opened then (status EINVAL, s)
      else if path ∉ s.dirs then (status ENOENT, s)
      else (status 0,
            { s with envs := replace env { e with opened := true, flags := flags } s.envs })
  | .mdb_env_close env, s =>
    (status 0,
     { s with envs := remove env s.envs,
              txns := s.txns.filter (fun t => t.2.env ≠ env) })
  | .mdb_env_sync env _, s =>
    match find env s.envs with
    | none => (status EINVAL, s)
    | some e => if e.opened then (status 0, s) else (status EINVAL, s)
  | .mdb_env_get_maxkeysize _, s => (status MAXKEYSIZE, s)
  | .mdb_txn_begin env flags, s =>
    match find env s.envs with
    | none => (status EINVAL, s)
    | some e =>
      if !e.opened then (status EINVAL, s)
      else if !hasFlag flags MDB_RDONLY && writerLive env s then (status EDEADLK, s)
      else (⟨0, s.fresh, 0, [], []⟩,
            { s with txns := (s.fresh, ⟨env, hasFlag flags MDB_RDONLY, s.store⟩) :: s.txns,
                     fresh := s.fresh + 1 })
  | .mdb_txn_commit txn, s =>
    match find txn s.txns with
    | none => (status EINVAL, s)
    | some t =>
      (status 0, endTxn txn { s with store := if t.rdonly then s.store else t.view })
  | .mdb_txn_abort txn, s => (status 0, endTxn txn s)
  | .mdb_dbi_open txn _, s =>
    match find txn s.txns with
    | none => (status EINVAL, s)
    | some _ => (⟨0, 0, MAIN_DBI, [], []⟩, s)
  | .mdb_put txn dbi key val _, s =>
    match find txn s.txns with
    | none => (status EINVAL, s)
    | some t =>
      if dbi ≠ MAIN_DBI then (status EINVAL, s)
      else if t.rdonly then (status EACCES, s)
      else (status 0,
            { s with txns := replace txn { t with view := storePut t.view key val } s.txns })
  | .mdb_get txn dbi key, s =>
    match find txn s.txns with
    | none => (status EINVAL, s)
    | some t =>
      if dbi ≠ MAIN_DBI then (status EINVAL, s)
      else
        match storeGet t.view key with
        | none => (status MDB_NOTFOUND, s)
        | some v => (⟨0, 0, 0, key, v⟩, s)
  | .mdb_del txn dbi key, s =>
    match find txn s.txns with
    | none => (status EINVAL, s)
    | some t =>
      if dbi ≠ MAIN_DBI then (status EINVAL, s)
      else if t.rdonly then (status EACCES, s)
      else
        match storeGet t.view key with
        | none => (status MDB_NOTFOUND, s)
        | some _ =>
          (status 0,
           { s with txns := replace txn { t with view := storeDel t.view key } s.txns })
  | .mdb_cursor_open txn dbi, s =>
    match find txn s.txns with
    | none => (status EINVAL, s)
    | some _ =>
      if dbi ≠ MAIN_DBI then (status EINVAL, s)
      else (⟨0, s.fresh, 0, [], []⟩,
            { s with cursors := (s.fresh, ⟨txn, none⟩) :: s.cursors, fresh := s.fresh + 1 })
  | .mdb_cursor_close cursor, s => (status 0, { s with cursors := remove cursor s.cursors })
  | .mdb_cursor_get cursor key op, s =>
    match find cursor s.cursors with
    | none => (status EINVAL, s)
    | some c =>
      match find c.txn s.txns with
      | none => (status EINVAL, s)
      | some t =>
        match navigate t.view c.pos key op with
        | none =>
          (status MDB_NOTFOUND,
           { s with cursors := replace cursor { c with pos := none } s.cursors })
        | some (k, v) =>
          (⟨0, 0, 0, k, v⟩,
           { s with cursors := replace cursor { c with pos := some k } s.cursors })
  | .mdb_cursor_put cursor key val _, s =>
    match find cursor s.cursors with
    | none => (status EINVAL, s)
    | some c =>
      match find c.txn s.txns with
      | none => (status EINVAL, s)
      | some t =>
        if t.rdonly then (status EACCES, s)
        else
          (status 0,
           { s with txns := replace c.txn { t with view := storePut t.view key val } s.txns,
                    cursors := replace cursor { c with pos := some key } s.cursors })
  | .mdb_cursor_del cursor _, s =>
    match find cursor s.cursors with
    | none => (status EINVAL, s)
    | some c =>
      match find c.txn s.txns with
      | none => (status EINVAL, s)
      | some t =>
        if t.rdonly then (status EACCES, s)
        else
          match c.pos with
          | none => (status EINVAL, s)
          | some k =>
            match storeGet t.view k with
            | none => (status MDB_NOTFOUND, s)
            | some _ =>
              (status 0,
               { s with txns := replace c.txn { t with view := storeDel t.view k } s.txns })

/-- Modelled from the spec: a call that meets the injected failure `rc` returns
`rc` and changes nothing ("on failure the transaction's effects are not
applied"), except that a failed commit still ends its transaction, as lmdb.h
states for `mdb_txn_commit`. -/
def lmdbFail (rc : Int) : Call → LMDB → Resp × LMDB
  | .mdb_txn_commit txn, s => (status rc, endTxn txn s)
  | _, s => (status rc, s)

/-- Modelled from the spec: the reference engine, standing for liblmdb.  A
fallible call takes the next entry of the failure script and fails with it when
it is a failure code. -/
def lmdb (c : Call) (s : LMDB) : Resp × LMDB :=
  if fallible c then
    match pending s with
    | some rc => lmdbFail rc c (advance s)
    | none => lmdbOk c (advance s)
  else lmdbOk c s

/-- The store of the examples: keys "user:1", "user:2" and "zz", environment 1
open on directory "db", write transaction 2 with cursor 3. -/
def demo : LMDB :=
  { dirs := ["db"],
    store := [(bytesOf "user:1", bytesOf "a"), (bytesOf "user:2", bytesOf "b"),
              (bytesOf "zz", bytesOf "c")],
    envs := [(1, ⟨true, 1048576, MDB_NOTLS⟩)],
    txns := [(2, ⟨1, false,
              [(bytesOf "user:1", bytesOf "a"), (bytesOf "user:2", bytesOf "b"),
               (bytesOf "zz", bytesOf "c")]⟩)],
    cursors := [(3, ⟨2, none⟩)],
    fresh := 4,
    faults := [] }

/-! ## States, predicates and compositions used in the statements -/

/-- The three-way reading of a status code `rc`: the result `res` is `absent`
exactly for not-found, is `found` exactly for success, and is an error exactly
for every other code, the error then carrying the engine's message for `rc`. -/
def Discipline {β : Type} (rc : Int) (res : Except LMDBError β) (absent found : β) : Prop :=
  (res = .ok absent ↔ rc = MDB_NOTFOUND) ∧
  (res = .ok found ↔ rc = 0) ∧
  ((∃ e, res = .error e) ↔ (rc ≠ MDB_NOTFOUND ∧ rc ≠ 0)) ∧
  (∀ e, res = .error e → e = ⟨mdb_strerror rc⟩)

/-- The run `o` from state `s` made the one call `call` and nothing else, and
ended in the state in which that call left the engine. -/
def onlyCall {σ α : Type} (h : Call → σ → Resp × σ) (s : σ) (call : Call)
    (o : Outcome σ α) : Prop :=
  o.events = [(call, (h call s).1)] ∧ o.state = (h call s).2

/-- The calls whose status code `lmdbQ__env_create_and_open` tests. -/
def openChecks : Call → Bool
  | .mdb_env_create => true
  | .mdb_env_set_mapsize _ _ => true
  | .mdb_env_open _ _ _ _ => true
  | .mdb_txn_begin _ _ => true
  | .mdb_dbi_open _ _ => true
  | .mdb_txn_commit _ => true
  | _ => false

/-- An empty store directory "db" that already exists, no handle yet. -/
def existingDir : LMDB :=
  { dirs := ["db"], store := [], envs := [], txns := [], cursors := [], fresh := 1, faults := [] }

/-- No directory yet, and a failure script that lets `mdb_env_create` and
`mdb_env_set_mapsize` through and makes `mkdir` fail with `EACCES`. -/
def missingDir : LMDB :=
  { dirs := [], store := [], envs := [], txns := [], cursors := [], fresh := 1,
    faults := [0, 0, EACCES] }

/-- The state after a successful `mdb_txn_begin`. -/
def begun (m : LMDB) (env : Int) (flags : Nat) : LMDB :=
  { advance m with
    txns := (m.fresh, ⟨env, hasFlag flags MDB_RDONLY, m.store⟩) :: m.txns,
    fresh := m.fresh + 1 }

/-- What lets `mdb_txn_begin` succeed: an open environment and, for a write
transaction, no live writer. -/
def canBegin (m : LMDB) (env : Int) (flags : Nat) : Bool :=
  match find env m.envs with
  | none => false
  | some e => e.opened && (hasFlag flags MDB_RDONLY || !writerLive env m)

/-- An idle store: keys "a" and "b", environment 1 open on directory "db", no
live transaction, no scripted failure. -/
def idle : LMDB :=
  { dirs := ["db"],
    store := [(bytesOf "a", bytesOf "1"), (bytesOf "b", bytesOf "2")],
    envs := [(1, ⟨true, 1048576, MDB_NOTLS⟩)],
    txns := [], cursors := [], fresh := 2, faults := [] }

/-- The cursor is positioned on key `k`. -/
def positionedOn (s : LMDB) (c : Int) (k : Bytes) : Bool :=
  match find c s.cursors with
  | none => false
  | some cr => cr.pos == some k

/-- The body that `lmdbQ__cursor_first`, `_last`, `_next`, `_prev` and `_seek`
share in the source, with the key and the cursor operation as parameters; each
of the five is this body at its own key and operation (`navBody_eq`). -/
def navBody (c : Int) (key : Bytes) (op : MDB_cursor_op) : Prog (Option (Bytes × Bytes)) :=
  .call (.mdb_cursor_get c key op) fun r =>
  if r.rc = MDB_NOTFOUND then .ret none
  else if r.rc ≠ 0 then .RAISE ⟨mdb_strerror r.rc⟩
  else .ret (some (r.key, r.val))

/-- The composition `beginRead; txn_get; abort`: the transaction is aborted
whether `txn_get` returns or raises. -/
def get_composed (env dbi : Int) (key : Bytes) : Prog (Option Bytes) :=
  (lmdbQ__txn_begin_read env).bind fun txn =>
  ((lmdbQ__txn_get txn dbi key).tryCatch fun e =>
    (lmdbQ__txn_abort txn).bind fun _ => .RAISE e).bind fun v =>
  (lmdbQ__txn_abort txn).bind fun _ => .ret v

/-- The composition `beginWrite; txn_put; commit`, with abort instead of commit
when `txn_put` raises. -/
def put_composed (env dbi : Int) (key value : Bytes) : Prog Unit :=
  (lmdbQ__txn_begin_write env).bind fun txn =>
  ((lmdbQ__txn_put txn dbi key value).tryCatch fun e =>
    (lmdbQ__txn_abort txn).bind fun _ => .RAISE e).bind fun _ =>
  lmdbQ__txn_commit txn

/-- The composition `beginWrite; txn_delete; commit` when `txn_delete` returned
true, with abort when it returned false or raised. -/
def delete_composed (env dbi : Int) (key : Bytes) : Prog Bool :=
  (lmdbQ__txn_begin_write env).bind fun txn =>
  ((lmdbQ__txn_delete txn dbi key).tryCatch fun e =>
    (lmdbQ__txn_abort txn).bind fun _ => .RAISE e).bind fun deleted =>
  if deleted then (lmdbQ__txn_commit txn).bind fun _ => .ret true
  else (lmdbQ__txn_abort txn).bind fun _ => .ret false

/-- Calls that end a transaction. -/
def endsTxn : Call → Bool
  | .mdb_txn_commit _ => true
  | .mdb_txn_abort _ => true
  | _ => false

/-- The calls whose status code `lmdbQ__put` tests. -/
def putChecks : Call → Bool
  | .mdb_txn_begin _ _ => true
  | .mdb_put _ _ _ _ _ => true
  | .mdb_txn_commit _ => true
  | _ => false

/-! ## Running programs -/

@[simp]
theorem push_result {σ α : Type} (ev : Event) (o : Outcome σ α) :
    (o.push ev).result = o.result := rfl

@[simp]
theorem push_state {σ α : Type} (ev : Event) (o : Outcome σ α) :
    (o.push ev).state = o.state := rfl

@[simp]
theorem push_events {σ α : Type} (ev : Event) (o : Outcome σ α) :
    (o.push ev).events = ev :: o.events := rfl

/-- Running a conditional program runs the selected branch. -/
theorem run_ite {σ α : Type} (h : Call → σ → Resp × σ) (s : σ) (c : Prop) [Decidable c]
    (a b : Prog α) :
    Prog.run h (if c then a else b) s = if c then Prog.run h a s else Prog.run h b s := by
  split <;> rfl

/-! ## Status codes: not-found is a result, other failures raise -/

/-- C7: not-found is a result, every other failure is an error.  For every
engine and engine state, in `lmdbQ__txn_get`, `lmdbQ__txn_delete` and
`lmdbQ__cursor_first`, `_last`, `_next`, `_prev`, `_seek`, with `rc` the status
code the underlying engine call returns: the function returns absent (`none`;
`false` for delete) exactly when `rc` is `MDB_NOTFOUND`, returns the found
value, pair or `true` exactly when `rc` is 0, and raises exactly when `rc` is
any other code, the error then carrying `mdb_strerror(rc)`. -/
theorem notfound_is_a_result_any_other_status_raises {σ : Type} (h : Call → σ → Resp × σ)
    (s : σ) (txn dbi cursor : Int) (key : Bytes) :
    Discipline (h (.mdb_get txn (cast_MDB_dbi dbi) key) s).1.rc
      ((lmdbQ__txn_get txn dbi key).run h s).result
      none (some (h (.mdb_get txn (cast_MDB_dbi dbi) key) s).1.val)
    ∧ Discipline (h (.mdb_del txn (cast_MDB_dbi dbi) key) s).1.rc
      ((lmdbQ__txn_delete txn dbi key).run h s).result false true
    ∧ Discipline (h (.mdb_cursor_get cursor [] .MDB_FIRST) s).1.rc
      ((lmdbQ__cursor_first cursor).run h s).result none
      (some ((h (.mdb_cursor_get cursor [] .MDB_FIRST) s).1.key,
             (h (.mdb_cursor_get cursor [] .MDB_FIRST) s).1.val))
    ∧ Discipline (h (.mdb_cursor_get cursor [] .MDB_LAST) s).1.rc
      ((lmdbQ__cursor_last cursor).run h s).result none
      (some ((h (.mdb_cursor_get cursor [] .MDB_LAST) s).1.key,
             (h (.mdb_cursor_get cursor [] .MDB_LAST) s).1.val))
    ∧ Discipline (h (.mdb_cursor_get cursor [] .MDB_NEXT) s).1.rc
      ((lmdbQ__cursor_next cursor).run h s).result none
      (some ((h (.mdb_cursor_get cursor [] .MDB_NEXT) s).1.key,
             (h (.mdb_cursor_get cursor [] .MDB_NEXT) s).1.val))
    ∧ Discipline (h (.mdb_cursor_get cursor [] .MDB_PREV) s).1.rc
      ((lmdbQ__cursor_prev cursor).run h s).result none
      (some ((h (.mdb_cursor_get cursor [] .MDB_PREV) s).1.key,
             (h (.mdb_cursor_get cursor [] .MDB_PREV) s).1.val))
    ∧ Discipline (h (.mdb_cursor_get cursor key .MDB_SET_RANGE) s).1.rc
      ((lmdbQ__cursor_seek cursor key).run h s).result none
      (some ((h (.mdb_cursor_get cursor key .MDB_SET_RANGE) s).1.key,
             (h (.mdb_cursor_get cursor key .MDB_SET_RANGE) s).1.val)) := by
  refine ⟨?_, ?_, ?_, ?_, ?_, ?_, ?_⟩
  · simp only [Discipline, lmdbQ__txn_get, Prog.run]
    by_cases h1 : (h (.mdb_get txn (cast_MDB_dbi dbi) key) s).1.rc = MDB_NOTFOUND
    · simp [h1, Prog.run, MDB_NOTFOUND]
    · by_cases h2 : (h (.mdb_get txn (cast_MDB_dbi dbi) key) s).1.rc = 0
      · simp [h1, h2, Prog.run, MDB_NOTFOUND]
      · simp [h1, h2, Prog.run]
  · simp only [Discipline, lmdbQ__txn_delete, Prog.run]
    by_cases h1 : (h (.mdb_del txn (cast_MDB_dbi dbi) key) s).1.rc = MDB_NOTFOUND
    · simp [h1, Prog.run, MDB_NOTFOUND]
    · by_cases h2 : (h (.mdb_del txn (cast_MDB_dbi dbi) key) s).1.rc = 0
      · simp [h1, h2, Prog.run, MDB_NOTFOUND]
      · simp [h1, h2, Prog.run]
  · simp only [Discipline, lmdbQ__cursor_first, Prog.run]
    by_cases h1 : (h (.mdb_cursor_get cursor [] .MDB_FIRST) s).1.rc = MDB_NOTFOUND
    · simp [h1, Prog.run, MDB_NOTFOUND]
    · by_cases h2 : (h (.mdb_cursor_get cursor [] .MDB_FIRST) s).1.rc = 0
      · simp [h1, h2, Prog.run, MDB_NOTFOUND]
      · simp [h1, h2, Prog.run]
  · simp only [Discipline, lmdbQ__cursor_last, Prog.run]
    by_cases h1 : (h (.mdb_cursor_get cursor [] .MDB_LAST) s).1.rc = MDB_NOTFOUND
    · simp [h1, Prog.run, MDB_NOTFOUND]
    · by_cases h2 : (h (.mdb_cursor_get cursor [] .MDB_LAST) s).1.rc = 0
      · simp [h1, h2, Prog.run, MDB_NOTFOUND]
      · simp [h1, h2, Prog.run]
  · simp only [Discipline, lmdbQ__cursor_next, Prog.run]
    by_cases h1 : (h (.mdb_cursor_get cursor [] .MDB_NEXT) s).1.rc = MDB_NOTFOUND
    · simp [h1, Prog.run, MDB_NOTFOUND]
    · by_cases h2 : (h (.mdb_cursor_get cursor [] .MDB_NEXT) s).1.rc = 0
      · simp [h1, h2, Prog.run, MDB_NOTFOUND]
      · simp [h1, h2, Prog.run]
  · simp only [Discipline, lmdbQ__cursor_prev, Prog.run]
    by_cases h1 : (h (.mdb_cursor_get cursor [] .MDB_PREV) s).1.rc = MDB_NOTFOUND
    · simp [h1, Prog.run, MDB_NOTFOUND]
    · by_cases h2 : (h (.mdb_cursor_get cursor [] .MDB_PREV) s).1.rc = 0
      · simp [h1, h2, Prog.run, MDB_NOTFOUND]
      · simp [h1, h2, Prog.run]
  · simp only [Discipline, lmdbQ__cursor_seek, Prog.run]
    by_cases h1 : (h (.mdb_cursor_get cursor key .MDB_SET_RANGE) s).1.rc = MDB_NOTFOUND
    · simp [h1, Prog.run, MDB_NOTFOUND]
    · by_cases h2 : (h (.mdb_cursor_get cursor key .MDB_SET_RANGE) s).1.rc = 0
      · simp [h1, h2, Prog.run, MDB_NOTFOUND]
      · simp [h1, h2, Prog.run]

/-- C5: close always releases the environment.  For every engine and engine
state, `lmdbQ__close` makes exactly two calls, `mdb_env_sync(env, 1)` and then
`mdb_env_close(env)` once, whatever the flush returned; it raises, with the
message of the flush status, exactly when the flush status is not 0 and returns
normally exactly when it is 0; the state it ends in is the one after the
release, so on a flush failure the environment is released before the error
reaches the caller. -/
theorem close_always_releases {σ : Type} (h : Call → σ → Resp × σ) (s : σ) (env dbi : Int) :
    ((lmdbQ__close env dbi).run h s).events
        = [(.mdb_env_sync env 1, (h (.mdb_env_sync env 1) s).1),
           (.mdb_env_close env,
            (h (.mdb_env_close env) (h (.mdb_env_sync env 1) s).2).1)]
    ∧ ((lmdbQ__close env dbi).run h s).state
        = (h (.mdb_env_close env) (h (.mdb_env_sync env 1) s).2).2
    ∧ (((lmdbQ__close env dbi).run h s).result
          = .error ⟨mdb_strerror (h (.mdb_env_sync env 1) s).1.rc⟩
        ↔ (h (.mdb_env_sync env 1) s).1.rc ≠ 0)
    ∧ (((lmdbQ__close env dbi).run h s).result = .ok ()
        ↔ (h (.mdb_env_sync env 1) s).1.rc = 0) := by
  simp only [lmdbQ__close, Prog.run]
  by_cases h1 : (h (.mdb_env_sync env 1) s).1.rc = 0
  · simp [h1, Prog.run]
  · simp [h1, Prog.run]

/-- C9: open disables thread-local storage.  For every engine and engine state,
every `mdb_env_open` call that `lmdbQ__env_create_and_open` makes passes the
flag word `MDB_NOTLS`, in which the `MDB_NOTLS` bit is set; and whenever the
function returns a tuple, the returned environment handle is one for which such
a call was made, on the given path, and succeeded. -/
theorem open_passes_MDB_NOTLS {σ : Type} (h : Call → σ → Resp × σ) (s : σ) (path : String)
    (max_size : Int) :
    (∀ ev ∈ ((lmdbQ__env_create_and_open path max_size).run h s).events,
      ∀ env p flags mode, ev.1 = .mdb_env_open env p flags mode →
        flags = MDB_NOTLS ∧ hasFlag flags MDB_NOTLS = true)
    ∧ (∀ t, ((lmdbQ__env_create_and_open path max_size).run h s).result = .ok t →
        ∃ r, (Call.mdb_env_open t.1 path MDB_NOTLS 0o664, r)
              ∈ ((lmdbQ__env_create_and_open path max_size).run h s).events ∧ r.rc = 0) := by
  have hf : hasFlag MDB_NOTLS MDB_NOTLS = true := by decide
  simp only [lmdbQ__env_create_and_open, Prog.run, run_ite]
  split_ifs <;> simp [hf]
  all_goals first
    | (intro _ _ _ _ _ _ hfl _; subst hfl; exact ⟨rfl, hf⟩)
    | (refine ⟨?_, by simp_all⟩
       intro _ _ _ _ _ _ hfl _; subst hfl; exact ⟨rfl, hf⟩)

/-! ## Facts about the reference engine -/

theorem pending_ne_zero (m : LMDB) (rc : Int) (hp : pending m = some rc) : rc ≠ 0 := by
  unfold pending at hp
  split at hp
  · simp at hp
  · split at hp
    · rename_i f _ hf
      simp only [Option.some.injEq] at hp
      subst hp
      intro h0
      simp [isFault, h0] at hf
    · simp at hp

theorem pending_ne_notfound (m : LMDB) (rc : Int) (hp : pending m = some rc) :
    rc ≠ MDB_NOTFOUND := by
  unfold pending at hp
  split at hp
  · simp at hp
  · split at hp
    · rename_i f _ hf
      simp only [Option.some.injEq] at hp
      subst hp
      intro h0
      simp [isFault, h0] at hf
    · simp at hp

theorem calm_iff (m : LMDB) : calm m = true ↔ ∀ f ∈ m.faults, isFault f = false := by
  simp [calm]

theorem canBegin_iff (m : LMDB) (env : Int) (flags : Nat) :
    canBegin m env flags = true
      ↔ ∃ e, find env m.envs = some e ∧ e.opened = true
          ∧ (hasFlag flags MDB_RDONLY = true ∨ writerLive env m = false) := by
  unfold canBegin
  cases find env m.envs <;> simp

theorem positionedOn_iff (s : LMDB) (c : Int) (k : Bytes) :
    positionedOn s c k = true ↔ ∃ cr, find c s.cursors = some cr ∧ cr.pos = some k := by
  unfold positionedOn
  cases find c s.cursors <;> simp

theorem pending_of_calm (m : LMDB) (hc : calm m) : pending m = none := by
  unfold pending
  split
  · rfl
  · rename_i f fs hf
    have := (calm_iff m).1 hc f (by simp [hf])
    simp [this]

theorem lmdb_txn_begin (m : LMDB) (env : Int) (flags : Nat) :
    ((lmdb (.mdb_txn_begin env flags) m).1.rc ≠ 0
      ∧ (lmdb (.mdb_txn_begin env flags) m).2 = advance m)
    ∨ ((lmdb (.mdb_txn_begin env flags) m).1 = ⟨0, m.fresh, 0, [], []⟩
      ∧ (lmdb (.mdb_txn_begin env flags) m).2 = begun m env flags
      ∧ canBegin m env flags) := by
  simp only [lmdb, fallible, if_true]
  cases hp : pending m with
  | some rc =>
    left
    simp [lmdbFail, status, pending_ne_zero m rc hp]
  | none =>
    simp only [lmdbOk]
    cases hfe : find env (advance m).envs with
    | none => left; simp [status, EINVAL]
    | some e =>
      simp only
      split_ifs with h1 h2
      · left; simp [status, EINVAL]
      · left; simp [status, EDEADLK]
      · right
        refine ⟨by simp [advance], by simp [begun, advance],
          (canBegin_iff m env flags).2 ⟨e, by simpa [advance] using hfe, ?_, ?_⟩⟩
        · simpa using h1
        · simp only [Bool.and_eq_true, Bool.not_eq_true', not_and, Bool.not_eq_true] at h2
          cases hr : hasFlag flags MDB_RDONLY
          · right; simpa [writerLive, advance] using h2 hr
          · left; rfl

theorem lmdb_txn_begin_ok (m : LMDB) (env : Int) (flags : Nat) (hp : pending m = none)
    (hb : canBegin m env flags) :
    lmdb (.mdb_txn_begin env flags) m = (⟨0, m.fresh, 0, [], []⟩, begun m env flags) := by
  obtain ⟨e, he, ho, hw⟩ := (canBegin_iff m env flags).1 hb
  simp only [lmdb, fallible, if_true, hp, lmdbOk]
  have he2 : find env (advance m).envs = some e := by simpa [advance] using he
  simp only [he2, ho]
  rcases hw with hw | hw
  · simp [hw, begun, advance]
  · have hw2 : writerLive env (advance m) = false := by simpa [writerLive, advance] using hw
    simp only [hw2, Bool.and_false]
    simp [begun, advance]

theorem lmdb_txn_abort (m : LMDB) (txn : Int) :
    lmdb (.mdb_txn_abort txn) m = (status 0, endTxn txn m) := by
  simp [lmdb, fallible, lmdbOk]

theorem lmdb_put (m : LMDB) (txn : Int) (dbi : Nat) (key val : Bytes) (flags : Nat) :
    ((lmdb (.mdb_put txn dbi key val flags) m).1.rc ≠ 0
      ∧ (lmdb (.mdb_put txn dbi key val flags) m).2 = advance m)
    ∨ (∃ t, find txn m.txns = some t ∧ dbi = MAIN_DBI ∧ t.rdonly = false
      ∧ (lmdb (.mdb_put txn dbi key val flags) m).1 = status 0
      ∧ (lmdb (.mdb_put txn dbi key val flags) m).2
          = { advance m with
              txns := replace txn { t with view := storePut t.view key val } m.txns }) := by
  simp only [lmdb, fallible, if_true]
  cases hp : pending m with
  | some rc =>
    left
    simp [lmdbFail, status, pending_ne_zero m rc hp]
  | none =>
    simp only [lmdbOk]
    cases hfe : find txn (advance m).txns with
    | none => left; simp [status, EINVAL]
    | some t =>
      simp only
      split_ifs with h1 h2
      · left; simp [status, EINVAL]
      · left; simp [status, EACCES]
      · right
        refine ⟨t, by simpa [advance] using hfe, by simpa using h1, by simpa using h2, rfl, ?_⟩
        simp [advance]

theorem lmdb_txn_commit (m : LMDB) (txn : Int) :
    ((lmdb (.mdb_txn_commit txn) m).1.rc ≠ 0
      ∧ ((find txn m.txns = none ∧ (lmdb (.mdb_txn_commit txn) m).2 = advance m)
        ∨ (lmdb (.mdb_txn_commit txn) m).2 = endTxn txn (advance m)))
    ∨ (∃ t, find txn m.txns = some t
      ∧ (lmdb (.mdb_txn_commit txn) m).1 = status 0
      ∧ (lmdb (.mdb_txn_commit txn) m).2
          = endTxn txn { advance m with store := if t.rdonly then m.store else t.view }) := by
  simp only [lmdb, fallible, if_true]
  cases hp : pending m with
  | some rc =>
    left
    simp [lmdbFail, status, pending_ne_zero m rc hp]
  | none =>
    simp only [lmdbOk]
    cases hfe : find txn (advance m).txns with
    | none =>
      left
      refine ⟨by simp [status, EINVAL], Or.inl ⟨by simpa [advance] using hfe, rfl⟩⟩
    | some t =>
      right
      exact ⟨t, by simpa [advance] using hfe, rfl, by simp [advance]⟩

theorem lmdb_get_ok (m : LMDB) (txn : Int) (dbi : Nat) (key : Bytes) (t : TxnRec)
    (hp : pending m = none) (ht : find txn m.txns = some t) (hd : dbi = MAIN_DBI) :
    (lmdb (.mdb_get txn dbi key) m).1
      = match storeGet t.view key with
        | none => status MDB_NOTFOUND
        | some v => ⟨0, 0, 0, key, v⟩ := by
  have ht2 : find txn (advance m).txns = some t := by simpa [advance] using ht
  simp only [lmdb, fallible, if_true, hp, lmdbOk, ht2, hd]
  cases hg : storeGet t.view key <;> simp

theorem hasFlag_zero : hasFlag 0 MDB_RDONLY = false := by decide

theorem hasFlag_rdonly : hasFlag MDB_RDONLY MDB_RDONLY = true := by decide

/-- The run of `lmdbQ__put` on the reference engine: either it raises and the
store and the live transactions are as before, or it returns and the store has
the new entry. -/
theorem put_model (m : LMDB) (env dbi : Int) (k v : Bytes) :
    ((∃ e, ((lmdbQ__put env dbi k v).run lmdb m).result = .error e)
      ∧ ((lmdbQ__put env dbi k v).run lmdb m).state.store = m.store
      ∧ ((lmdbQ__put env dbi k v).run lmdb m).state.txns = m.txns)
    ∨ (((lmdbQ__put env dbi k v).run lmdb m).result = .ok ()
      ∧ ((lmdbQ__put env dbi k v).run lmdb m).state.store = storePut m.store k v
      ∧ ((lmdbQ__put env dbi k v).run lmdb m).state.txns = m.txns
      ∧ ((lmdbQ__put env dbi k v).run lmdb m).state.envs = m.envs
      ∧ ((lmdbQ__put env dbi k v).run lmdb m).state.faults = m.faults.tail.tail.tail
      ∧ canBegin m env 0 ∧ cast_MDB_dbi dbi = MAIN_DBI) := by
  generalize ho : (lmdbQ__put env dbi k v).run lmdb m = o
  simp only [lmdbQ__put, Prog.run, run_ite] at ho
  rcases lmdb_txn_begin m env 0 with ⟨hrc, hs⟩ | ⟨hr, hs, hb⟩
  · left
    subst ho
    simp [hrc, hs, Prog.run, advance]
  · simp only [hr, hs, ne_eq, not_true_eq_false, if_false] at ho
    rcases lmdb_put (begun m env 0) m.fresh (cast_MDB_dbi dbi) k v 0 with
      ⟨hrc2, hs2⟩ | ⟨t, ht, hd, hro, hr2, hs2⟩
    · left
      simp only [hrc2, hs2, not_false_eq_true, if_true, Prog.run, lmdb_txn_abort] at ho
      subst ho
      simp [endTxn, advance, begun, remove]
    · have ht2 : t = ⟨env, false, m.store⟩ := by
        simpa [begun, find, hasFlag_zero] using ht.symm
      subst ht2
      generalize hm2 : (lmdb (Call.mdb_put m.fresh (cast_MDB_dbi dbi) k v 0) (begun m env 0)).2
        = m2 at ho hs2
      have e1 : m2.txns = (m.fresh, ⟨env, false, storePut m.store k v⟩) :: m.txns := by
        rw [hs2]; simp [begun, replace, advance]
      have e2 : m2.store = m.store := by rw [hs2]; simp [begun, advance]
      have e3 : m2.envs = m.envs := by rw [hs2]; simp [begun, advance]
      have e4 : m2.faults = m.faults.tail.tail := by rw [hs2]; simp [begun, advance]
      simp only [hr2, status, not_true_eq_false, if_false] at ho
      rcases lmdb_txn_commit m2 m.fresh with ⟨hrc3, hs3⟩ | ⟨t3, ht3, hr3, hs3⟩
      · left
        simp only [hrc3, not_false_eq_true, if_true, Prog.run] at ho
        subst ho
        rcases hs3 with ⟨hn, _⟩ | hs3
        · simp [e1, find] at hn
        · simp [hs3, endTxn, advance, e1, e2, remove]
      · right
        have ht4 : t3 = ⟨env, false, storePut m.store k v⟩ := by
          simpa [e1, find] using ht3.symm
        subst ht4
        simp only [hr3, status, not_true_eq_false, if_false, Prog.run] at ho
        subst ho
        simp [hs3, endTxn, advance, e1, e3, e4, remove, hb, hd]

theorem calm_of_tail (m m2 : LMDB) (hc : calm m) (hf : m2.faults = m.faults.tail) :
    calm m2 = true := by
  refine (calm_iff m2).2 fun f hfm => ?_
  rw [hf] at hfm
  exact (calm_iff m).1 hc f (List.mem_of_mem_tail hfm)

theorem lmdb_txn_commit_ok (m : LMDB) (txn : Int) (t : TxnRec) (hp : pending m = none)
    (ht : find txn m.txns = some t) :
    lmdb (.mdb_txn_commit txn) m
      = (status 0,
         endTxn txn { advance m with store := if t.rdonly then m.store else t.view }) := by
  have ht2 : find txn (advance m).txns = some t := by simpa [advance] using ht
  simp only [lmdb, fallible, if_true, hp, lmdbOk, ht2]
  simp [advance]

theorem lmdb_del_ok (m : LMDB) (txn : Int) (dbi : Nat) (key : Bytes) (t : TxnRec)
    (hp : pending m = none) (ht : find txn m.txns = some t) (hd : dbi = MAIN_DBI)
    (hw : t.rdonly = false) :
    lmdb (.mdb_del txn dbi key) m
      = match storeGet t.view key with
        | none => (status MDB_NOTFOUND, advance m)
        | some _ =>
          (status 0,
           { advance m with
             txns := replace txn { t with view := storeDel t.view key } m.txns }) := by
  have ht2 : find txn (advance m).txns = some t := by simpa [advance] using ht
  simp only [lmdb, fallible, if_true, hp, lmdbOk, ht2, hd, hw]
  cases hg : storeGet t.view key <;> simp [advance]

/-- On a calm engine with an open environment, `lmdbQ__get` returns what the
committed store holds for the key. -/
theorem get_ok (m : LMDB) (env dbi : Int) (k : Bytes) (hc : calm m)
    (hb : canBegin m env MDB_RDONLY) (hd : cast_MDB_dbi dbi = MAIN_DBI) :
    ((lmdbQ__get env dbi k).run lmdb m).result = .ok (storeGet m.store k) := by
  generalize ho : (lmdbQ__get env dbi k).run lmdb m = o
  simp only [lmdbQ__get, Prog.run, run_ite] at ho
  have hc1 : calm (begun m env MDB_RDONLY) := calm_of_tail m _ hc rfl
  have hf : find m.fresh (begun m env MDB_RDONLY).txns = some ⟨env, true, m.store⟩ := by
    simp [begun, find, hasFlag_rdonly]
  have hg := lmdb_get_ok (begun m env MDB_RDONLY) m.fresh (cast_MDB_dbi dbi) k _
    (pending_of_calm _ hc1) hf hd
  simp only [lmdb_txn_begin_ok m env MDB_RDONLY (pending_of_calm m hc) hb, ne_eq,
    not_true_eq_false, if_false, lmdb_txn_abort, hg] at ho
  subst ho
  cases hk : storeGet m.store k <;> simp [status, MDB_NOTFOUND]

/-! ## Environment open -/

theorem lmdb_env_create_dirs (m : LMDB) : (lmdb .mdb_env_create m).2.dirs = m.dirs := by
  simp only [lmdb, fallible, if_true]
  cases pending m <;> simp [lmdbFail, lmdbOk, advance]

theorem lmdb_env_set_mapsize_dirs (m : LMDB) (env : Int) (size : Nat) :
    (lmdb (.mdb_env_set_mapsize env size) m).2.dirs = m.dirs := by
  simp only [lmdb, fallible, if_true]
  cases pending m with
  | some rc => simp [lmdbFail, advance]
  | none =>
    simp only [lmdbOk]
    cases find env (advance m).envs <;> simp [advance]

theorem lmdb_mkdir_dirs (m : LMDB) (path : String) (mode : Nat)
    (hrc : (lmdb (.mkdir path mode) m).1.rc ≠ 0) :
    (lmdb (.mkdir path mode) m).2.dirs = m.dirs := by
  simp only [lmdb, fallible, if_true] at hrc ⊢
  cases hp : pending m with
  | some rc => simp [lmdbFail, advance]
  | none =>
    simp only [hp, lmdbOk] at hrc ⊢
    split_ifs at hrc ⊢ with h1
    · simp [advance]
    · cases hpd : parentDir path with
      | none => simp [hpd, status] at hrc
      | some parent =>
        simp only [hpd] at hrc ⊢
        split_ifs at hrc ⊢ with h2
        · simp [status] at hrc
        · simp [advance]

theorem lmdb_env_open_dirs (m : LMDB) (env : Int) (path : String) (flags mode : Nat)
    (hrc : (lmdb (.mdb_env_open env path flags mode) m).1.rc = 0) : path ∈ m.dirs := by
  simp only [lmdb, fallible, if_true] at hrc
  cases hp : pending m with
  | some rc =>
    simp only [hp, lmdbFail, status] at hrc
    exact absurd hrc (pending_ne_zero m rc hp)
  | none =>
    simp only [hp, lmdbOk] at hrc
    cases hf : find env (advance m).envs with
    | none => simp [hf, status, EINVAL] at hrc
    | some e =>
      simp only [hf] at hrc
      split_ifs at hrc with h1 h2
      · simp [status, EINVAL] at hrc
      · simpa [advance] using h2
      · simp [status, ENOENT] at hrc

/-- On the reference engine, when `lmdbQ__env_create_and_open` returns, the
directory was there before the call or `mkdir` created it. -/
theorem open_model (m : LMDB) (path : String) (max_size : Int) (t : Int × Int × Int)
    (ht : ((lmdbQ__env_create_and_open path max_size).run lmdb m).result = .ok t) :
    path ∈ m.dirs
    ∨ ∃ r, (Call.mkdir path 0o755, r)
            ∈ ((lmdbQ__env_create_and_open path max_size).run lmdb m).events ∧ r.rc = 0 := by
  generalize ho : (lmdbQ__env_create_and_open path max_size).run lmdb m = o at ht ⊢
  simp only [lmdbQ__env_create_and_open, Prog.run, run_ite] at ho
  have d1 := lmdb_env_create_dirs m
  generalize lmdb Call.mdb_env_create m = p1 at ho d1
  obtain ⟨r1, s1⟩ := p1
  dsimp only at ho d1
  have d2 := lmdb_env_set_mapsize_dirs s1 r1.handle (cast_size_t max_size)
  generalize lmdb (Call.mdb_env_set_mapsize r1.handle (cast_size_t max_size)) s1 = p2 at ho d2
  obtain ⟨r2, s2⟩ := p2
  dsimp only at ho d2
  have d3 := lmdb_mkdir_dirs s2 path 0o755
  generalize lmdb (Call.mkdir path 0o755) s2 = p3 at ho d3
  obtain ⟨r3, s3⟩ := p3
  dsimp only at ho d3
  have d4 := lmdb_env_open_dirs s3 r1.handle path MDB_NOTLS 0o664
  generalize lmdb (Call.mdb_env_open r1.handle path MDB_NOTLS 0o664) s3 = p4 at ho d4
  obtain ⟨r4, s4⟩ := p4
  dsimp only at ho d4
  split_ifs at ho with h1 h2 h4 <;> subst ho <;> simp at ht
  all_goals
    have hin : path ∈ s3.dirs := d4 (by simpa using h4)
    by_cases h3 : r3.rc = 0
    · right
      exact ⟨r3, by simp, h3⟩
    · left
      rw [d3 h3, d2, d1] at hin
      exact hin

/-- Reopening: on the reference engine, with the directory "db" already
present, `mkdir` reports that it made nothing (status -1) and
`lmdbQ__env_create_and_open` returns the tuple (environment 1, dbi 1, maximum
key size 511): the directory is there, which is all the step is for. -/
theorem reopen_existing_directory :
    ((lmdbQ__env_create_and_open "db" 1048576).run lmdb existingDir).result = .ok (1, 1, 511)
    ∧ (Call.mkdir "db" 0o755, status (-1))
        ∈ ((lmdbQ__env_create_and_open "db" 1048576).run lmdb existingDir).events := by
  constructor
  · rfl
  · decide

/-- C6: environment open fails if directory creation, map-size configuration,
environment open or the bootstrap transaction fails.  For every engine and
engine state, `lmdbQ__env_create_and_open` returns the tuple exactly when every
engine call whose status it tests succeeded (`mdb_env_create`,
`mdb_env_set_mapsize`, `mdb_env_open`, and the bootstrap transaction's
`mdb_txn_begin`, `mdb_dbi_open` and `mdb_txn_commit`) and raises exactly when
one of them failed, with the message of that call's status; when it returns,
the calls made are, in order: create, set map size, mkdir, open, begin, open
database, commit, query maximum key size.  The directory step is covered
through `mdb_env_open`: on the reference engine, for every state and failure
script, the tuple is returned only when the directory at `path` was already
there or `mkdir` created it, and when the directory is missing and `mkdir`
fails the function raises.  Examples: no directory "new" and `mkdir` made to
fail, and directory "nope/db" whose parent is missing: in both the function
raises with the message of `ENOENT`. -/
theorem open_returns_only_when_every_step_succeeded {σ : Type} (h : Call → σ → Resp × σ)
    (s : σ) (m : LMDB) (path : String) (max_size : Int) :
    ((∃ t, ((lmdbQ__env_create_and_open path max_size).run h s).result = .ok t)
      ↔ ∀ ev ∈ ((lmdbQ__env_create_and_open path max_size).run h s).events,
          openChecks ev.1 = true → ev.2.rc = 0)
    ∧ ((∃ e, ((lmdbQ__env_create_and_open path max_size).run h s).result = .error e)
      ↔ ∃ ev ∈ ((lmdbQ__env_create_and_open path max_size).run h s).events,
          openChecks ev.1 = true ∧ ev.2.rc ≠ 0)
    ∧ (∀ e, ((lmdbQ__env_create_and_open path max_size).run h s).result = .error e →
        ∃ ev ∈ ((lmdbQ__env_create_and_open path max_size).run h s).events,
          openChecks ev.1 = true ∧ ev.2.rc ≠ 0 ∧ e = ⟨mdb_strerror ev.2.rc⟩)
    ∧ (∀ t, ((lmdbQ__env_create_and_open path max_size).run h s).result = .ok t →
        ∃ txn, (((lmdbQ__env_create_and_open path max_size).run h s).events.map Prod.fst
          = [.mdb_env_create, .mdb_env_set_mapsize t.1 (cast_size_t max_size),
             .mkdir path 0o755, .mdb_env_open t.1 path MDB_NOTLS 0o664,
             .mdb_txn_begin t.1 0, .mdb_dbi_open txn MDB_CREATE, .mdb_txn_commit txn,
             .mdb_env_get_maxkeysize t.1]))
    ∧ (∀ t, ((lmdbQ__env_create_and_open path max_size).run lmdb m).result = .ok t →
        path ∈ m.dirs
        ∨ ∃ r, (Call.mkdir path 0o755, r)
                ∈ ((lmdbQ__env_create_and_open path max_size).run lmdb m).events ∧ r.rc = 0)
    ∧ (path ∉ m.dirs →
        (∀ r, (Call.mkdir path 0o755, r)
                ∈ ((lmdbQ__env_create_and_open path max_size).run lmdb m).events → r.rc ≠ 0) →
        ∃ e, ((lmdbQ__env_create_and_open path max_size).run lmdb m).result = .error e)
    ∧ ((lmdbQ__env_create_and_open "new" 1048576).run lmdb missingDir).result
        = .error ⟨mdb_strerror ENOENT⟩
    ∧ ((lmdbQ__env_create_and_open "nope/db" 1048576).run lmdb existingDir).result
        = .error ⟨mdb_strerror ENOENT⟩ := by
  refine ⟨?_, ?_, ?_, ?_, fun t ht => open_model m path max_size t ht,
    fun hmiss hfail => ?_, by rfl, by rfl⟩
  rotate_right
  · cases hres : ((lmdbQ__env_create_and_open path max_size).run lmdb m).result with
    | error e => exact ⟨e, rfl⟩
    | ok t =>
      rcases open_model m path max_size t hres with hin | ⟨r, hmem, hr⟩
      · exact absurd hin hmiss
      · exact absurd hr (hfail r hmem)
  all_goals
    generalize ho : (lmdbQ__env_create_and_open path max_size).run h s = o
    simp only [lmdbQ__env_create_and_open, Prog.run, run_ite] at ho
    generalize h Call.mdb_env_create s = p1 at ho
    obtain ⟨r1, s1⟩ := p1
    dsimp only at ho
    generalize h (Call.mdb_env_set_mapsize r1.handle (cast_size_t max_size)) s1 = p2 at ho
    obtain ⟨r2, s2⟩ := p2
    dsimp only at ho
    generalize h (Call.mkdir path 0o755) s2 = p3 at ho
    obtain ⟨r3, s3⟩ := p3
    dsimp only at ho
    generalize h (Call.mdb_env_open r1.handle path MDB_NOTLS 0o664) s3 = p4 at ho
    obtain ⟨r4, s4⟩ := p4
    dsimp only at ho
    generalize h (Call.mdb_txn_begin r1.handle 0) s4 = p5 at ho
    obtain ⟨r5, s5⟩ := p5
    dsimp only at ho
    generalize h (Call.mdb_dbi_open r5.handle MDB_CREATE) s5 = p6 at ho
    obtain ⟨r6, s6⟩ := p6
    dsimp only at ho
    generalize h (Call.mdb_txn_commit r5.handle) s6 = p7 at ho
    obtain ⟨r7, s7⟩ := p7
    dsimp only at ho
    split_ifs at ho <;> subst ho <;> simp [openChecks] <;> simp_all

/-! ## Facts about the store -/

theorem storeGet_storePut_self (st : Store) (k v : Bytes) :
    storeGet (storePut st k v) k = some v := by
  induction st with
  | nil => simp [storePut, storeGet]
  | cons e rest ih =>
    obtain ⟨k', v'⟩ := e
    simp only [storePut]
    split_ifs with h1 h2
    · simp [storeGet]
    · simp [storeGet]
    · simp [storeGet, h1, ih]

theorem storeGet_storeDel_self (st : Store) (k : Bytes) : storeGet (storeDel st k) k = none := by
  induction st with
  | nil => simp [storeDel, storeGet]
  | cons e rest ih =>
    obtain ⟨k', v'⟩ := e
    simp only [storeDel]
    split_ifs with h1
    · exact ih
    · simp [storeGet, h1, ih]

theorem storeGet_storeDel_other (st : Store) (k k' : Bytes) (hne : k' ≠ k) :
    storeGet (storeDel st k) k' = storeGet st k' := by
  induction st with
  | nil => simp [storeDel, storeGet]
  | cons e rest ih =>
    obtain ⟨k1, v1⟩ := e
    simp only [storeDel]
    split_ifs with h1
    · subst h1
      simp [storeGet, Ne.symm hne, ih]
    · simp [storeGet, ih]

theorem storeDel_of_absent (st : Store) (k : Bytes) (h : storeGet st k = none) :
    storeDel st k = st := by
  induction st with
  | nil => simp [storeDel]
  | cons e rest ih =>
    obtain ⟨k', v'⟩ := e
    simp only [storeGet] at h
    split_ifs at h with h1
    simp [storeDel, h1, ih h]

/-! ## Round trip and tombstone -/

theorem lmdb_put_ok (m : LMDB) (txn : Int) (dbi : Nat) (key val : Bytes) (flags : Nat)
    (t : TxnRec) (hp : pending m = none) (ht : find txn m.txns = some t)
    (hd : dbi = MAIN_DBI) (hw : t.rdonly = false) :
    lmdb (.mdb_put txn dbi key val flags) m
      = (status 0,
         { advance m with
           txns := replace txn { t with view := storePut t.view key val } m.txns }) := by
  have ht2 : find txn (advance m).txns = some t := by simpa [advance] using ht
  simp only [lmdb, fallible, if_true, hp, lmdbOk, ht2, hd, hw]
  simp [advance]

/-- On a calm engine with an open environment and no live writer, `lmdbQ__put`
returns normally and leaves the engine calm. -/
theorem put_ok (m : LMDB) (env dbi : Int) (k v : Bytes) (hc : calm m)
    (hb : canBegin m env 0) (hd : cast_MDB_dbi dbi = MAIN_DBI) :
    ((lmdbQ__put env dbi k v).run lmdb m).result = .ok ()
    ∧ calm ((lmdbQ__put env dbi k v).run lmdb m).state = true := by
  generalize ho : (lmdbQ__put env dbi k v).run lmdb m = o
  simp only [lmdbQ__put, Prog.run, run_ite] at ho
  have hc1 : calm (begun m env 0) = true := calm_of_tail m _ hc rfl
  have hf : find m.fresh (begun m env 0).txns = some ⟨env, false, m.store⟩ := by
    simp [begun, find, hasFlag_zero]
  have hg := lmdb_put_ok (begun m env 0) m.fresh (cast_MDB_dbi dbi) k v 0 _
    (pending_of_calm _ hc1) hf hd rfl
  simp only [lmdb_txn_begin_ok m env 0 (pending_of_calm m hc) hb, ne_eq,
    not_true_eq_false, if_false, hg, status] at ho
  generalize hm2 : ({ advance (begun m env 0) with
      txns := replace m.fresh
        { ({ env := env, rdonly := false, view := m.store } : TxnRec) with
          view := storePut ({ env := env, rdonly := false, view := m.store } : TxnRec).view k v }
        (begun m env 0).txns } : LMDB) = m2 at ho
  have e1 : m2.txns = (m.fresh, ⟨env, false, storePut m.store k v⟩) :: m.txns := by
    rw [← hm2]; simp [begun, replace, advance]
  have e4 : m2.faults = (begun m env 0).faults.tail := by rw [← hm2]; simp [advance]
  have hc2 : calm m2 = true := calm_of_tail _ _ hc1 e4
  have hf2 : find m.fresh m2.txns = some ⟨env, false, storePut m.store k v⟩ := by
    simp [e1, find]
  simp only [lmdb_txn_commit_ok m2 m.fresh _ (pending_of_calm _ hc2) hf2, status] at ho
  simp at ho
  subst ho
  exact ⟨by simp [Prog.run], calm_of_tail _ _ hc2 (by simp [Prog.run, endTxn, advance])⟩

/-- On a calm engine with an open environment and no live writer,
`lmdbQ__delete` returns whether the key was present and removes it. -/
theorem delete_ok (m : LMDB) (env dbi : Int) (k : Bytes) (hc : calm m)
    (hb : canBegin m env 0) (hd : cast_MDB_dbi dbi = MAIN_DBI) :
    ((lmdbQ__delete env dbi k).run lmdb m).result = .ok (storeGet m.store k).isSome
    ∧ ((lmdbQ__delete env dbi k).run lmdb m).state.store = storeDel m.store k
    ∧ (storeGet m.store k = none → ((lmdbQ__delete env dbi k).run lmdb m).state.store = m.store)
    ∧ ((lmdbQ__delete env dbi k).run lmdb m).state.txns = m.txns
    ∧ ((lmdbQ__delete env dbi k).run lmdb m).state.envs = m.envs
    ∧ calm ((lmdbQ__delete env dbi k).run lmdb m).state := by
  generalize ho : (lmdbQ__delete env dbi k).run lmdb m = o
  simp only [lmdbQ__delete, Prog.run, run_ite] at ho
  have hc1 : calm (begun m env 0) := calm_of_tail m _ hc rfl
  have hf : find m.fresh (begun m env 0).txns = some ⟨env, false, m.store⟩ := by
    simp [begun, find, hasFlag_zero]
  have hg := lmdb_del_ok (begun m env 0) m.fresh (cast_MDB_dbi dbi) k _
    (pending_of_calm _ hc1) hf hd rfl
  simp only [lmdb_txn_begin_ok m env 0 (pending_of_calm m hc) hb, ne_eq,
    not_true_eq_false, if_false, lmdb_txn_abort, hg] at ho
  cases hk : storeGet m.store k with
  | none =>
    simp only [hk, status, MDB_NOTFOUND, if_true, Prog.run] at ho
    subst ho
    refine ⟨by simp, ?_, ?_, ?_, ?_, ?_⟩
    · simp [endTxn, advance, begun, storeDel_of_absent m.store k hk]
    · intro _; simp [endTxn, advance, begun]
    · simp [endTxn, advance, begun, remove]
    · simp [endTxn, advance, begun]
    · exact calm_of_tail _ _ hc1 (by simp [endTxn, advance])
  | some v0 =>
    simp only [hk, status, MDB_NOTFOUND] at ho
    generalize hm2 : ({ advance (begun m env 0) with
        txns := replace m.fresh
          { ({ env := env, rdonly := false, view := m.store } : TxnRec) with
            view := storeDel ({ env := env, rdonly := false, view := m.store } : TxnRec).view k }
          (begun m env 0).txns } : LMDB) = m2 at ho
    have e1 : m2.txns = (m.fresh, ⟨env, false, storeDel m.store k⟩) :: m.txns := by
      rw [← hm2]; simp [begun, replace, advance]
    have e2 : m2.store = m.store := by rw [← hm2]; simp [begun, advance]
    have e3 : m2.envs = m.envs := by rw [← hm2]; simp [begun, advance]
    have e4 : m2.faults = (begun m env 0).faults.tail := by rw [← hm2]; simp [advance]
    have hc2 : calm m2 := calm_of_tail _ _ hc1 e4
    have hf2 : find m.fresh m2.txns = some ⟨env, false, storeDel m.store k⟩ := by
      simp [e1, find]
    simp only [lmdb_txn_commit_ok m2 m.fresh _ (pending_of_calm _ hc2) hf2, status] at ho
    simp at ho
    subst ho
    refine ⟨by simp [Prog.run], ?_, ?_, ?_, ?_, ?_⟩
    · simp [Prog.run, endTxn, advance]
    · intro h; simp at h
    · simp [Prog.run, endTxn, advance, e1, remove]
    · simp [Prog.run, endTxn, advance, e3]
    · exact calm_of_tail _ _ hc2 (by simp [Prog.run, endTxn, advance])

/-- C2: round trip of the convenience operations.  On the reference engine,
for every engine state, key `k` and value `v`: if `lmdbQ__put(env, dbi, k, v)`
returns normally (the engine's begin, put and commit succeeded) and no engine
failure is scripted for what follows, then `lmdbQ__get(env, dbi, k)` returns
exactly `v`, whether or not `k` was present before; the committed store is the
old one with `k` set to `v`. -/
theorem put_then_get_round_trip (m : LMDB) (env dbi : Int) (k v : Bytes)
    (hput : ((lmdbQ__put env dbi k v).run lmdb m).result = .ok ())
    (hcalm : calm ((lmdbQ__put env dbi k v).run lmdb m).state) :
    ((lmdbQ__get env dbi k).run lmdb ((lmdbQ__put env dbi k v).run lmdb m).state).result
      = .ok (some v)
    ∧ ((lmdbQ__put env dbi k v).run lmdb m).state.store = storePut m.store k v
    ∧ storeGet ((lmdbQ__put env dbi k v).run lmdb m).state.store k = some v := by
  rcases put_model m env dbi k v with ⟨⟨e, he⟩, _⟩ | ⟨_, hst, _, henv, _, hb, hd⟩
  · rw [hput] at he
    cases he
  · obtain ⟨e, hfe, hop, _⟩ := (canBegin_iff m env 0).1 hb
    have hb2 : canBegin ((lmdbQ__put env dbi k v).run lmdb m).state env MDB_RDONLY = true :=
      (canBegin_iff _ _ _).2 ⟨e, by rw [henv]; exact hfe, hop, Or.inl hasFlag_rdonly⟩
    rw [get_ok _ env dbi k hcalm hb2 hd, hst, storeGet_storePut_self]
    exact ⟨rfl, rfl, rfl⟩

/-- C2, witness: on the idle store, put("a", "9") then get("a") returns "9". -/
theorem put_then_get_round_trip_witness :
    ((lmdbQ__get 1 1 (bytesOf "a")).run lmdb
        ((lmdbQ__put 1 1 (bytesOf "a") (bytesOf "9")).run lmdb idle).state).result
      = .ok (some (bytesOf "9"))
    ∧ ((lmdbQ__put 1 1 (bytesOf "a") (bytesOf "9")).run lmdb idle).state.store
      = storePut idle.store (bytesOf "a") (bytesOf "9")
    ∧ storeGet ((lmdbQ__put 1 1 (bytesOf "a") (bytesOf "9")).run lmdb idle).state.store
        (bytesOf "a") = some (bytesOf "9") :=
  put_then_get_round_trip idle 1 1 (bytesOf "a") (bytesOf "9") (by rfl) (by rfl)

/-- C3: tombstone behaviour of the convenience delete.  On the reference
engine, for every state in which no engine failure is scripted, `env` is an
open environment without a live write transaction and `dbi` is its database,
and for every key `k`: when `k` is absent, `lmdbQ__delete` returns `false`
without raising and leaves the store and the live transactions unchanged; when
`k` is present, it returns `true`, the committed store is the old one without
`k`, a following `lmdbQ__get` of `k` returns absent, and a following
`lmdbQ__get` of any other key returns what the store held before. -/
theorem delete_is_a_tombstone (m : LMDB) (env dbi : Int) (k : Bytes) (hc : calm m)
    (hb : canBegin m env 0) (hd : cast_MDB_dbi dbi = MAIN_DBI) :
    (storeGet m.store k = none →
      ((lmdbQ__delete env dbi k).run lmdb m).result = .ok false
      ∧ ((lmdbQ__delete env dbi k).run lmdb m).state.store = m.store
      ∧ ((lmdbQ__delete env dbi k).run lmdb m).state.txns = m.txns)
    ∧ (∀ v, storeGet m.store k = some v →
      ((lmdbQ__delete env dbi k).run lmdb m).result = .ok true
      ∧ ((lmdbQ__delete env dbi k).run lmdb m).state.store = storeDel m.store k
      ∧ ((lmdbQ__delete env dbi k).run lmdb m).state.txns = m.txns
      ∧ ((lmdbQ__get env dbi k).run lmdb ((lmdbQ__delete env dbi k).run lmdb m).state).result
          = .ok none
      ∧ ∀ k', k' ≠ k →
          ((lmdbQ__get env dbi k').run lmdb ((lmdbQ__delete env dbi k).run lmdb m).state).result
            = .ok (storeGet m.store k')) := by
  obtain ⟨hres, hst, habs, htx, henv, hcalm⟩ := delete_ok m env dbi k hc hb hd
  obtain ⟨e, hfe, hop, _⟩ := (canBegin_iff m env 0).1 hb
  have hb2 : canBegin ((lmdbQ__delete env dbi k).run lmdb m).state env MDB_RDONLY = true :=
    (canBegin_iff _ _ _).2 ⟨e, by rw [henv]; exact hfe, hop, Or.inl hasFlag_rdonly⟩
  refine ⟨fun hk => ⟨by rw [hres, hk]; rfl, habs hk, htx⟩, fun v hk => ?_⟩
  refine ⟨by rw [hres, hk]; rfl, hst, htx, ?_, fun k' hne => ?_⟩
  · rw [get_ok _ env dbi k hcalm hb2 hd, hst, storeGet_storeDel_self]
  · rw [get_ok _ env dbi k' hcalm hb2 hd, hst, storeGet_storeDel_other _ _ _ hne]

/-- C3, witness: on the idle store, deleting the absent key "zz" returns false
and changes nothing; deleting "a" returns true, after which get("a") is absent
and get("b") still returns "2". -/
theorem delete_is_a_tombstone_witness :
    (((lmdbQ__delete 1 1 (bytesOf "zz")).run lmdb idle).result = .ok false
      ∧ ((lmdbQ__delete 1 1 (bytesOf "zz")).run lmdb idle).state.store = idle.store
      ∧ ((lmdbQ__delete 1 1 (bytesOf "zz")).run lmdb idle).state.txns = idle.txns)
    ∧ ((lmdbQ__delete 1 1 (bytesOf "a")).run lmdb idle).result = .ok true
    ∧ ((lmdbQ__get 1 1 (bytesOf "a")).run lmdb
          ((lmdbQ__delete 1 1 (bytesOf "a")).run lmdb idle).state).result = .ok none
    ∧ ((lmdbQ__get 1 1 (bytesOf "b")).run lmdb
          ((lmdbQ__delete 1 1 (bytesOf "a")).run lmdb idle).state).result
        = .ok (some (bytesOf "2")) :=
  have hc : calm idle = true := by rfl
  have hb : canBegin idle 1 0 = true := by rfl
  have hd : cast_MDB_dbi 1 = MAIN_DBI := by rfl
  ⟨(delete_is_a_tombstone idle 1 1 (bytesOf "zz") hc hb hd).1 (by rfl),
   ((delete_is_a_tombstone idle 1 1 (bytesOf "a") hc hb hd).2 (bytesOf "1") (by rfl)).1,
   ((delete_is_a_tombstone idle 1 1 (bytesOf "a") hc hb hd).2 (bytesOf "1") (by rfl)).2.2.2.1,
   ((delete_is_a_tombstone idle 1 1 (bytesOf "a") hc hb hd).2 (bytesOf "1") (by rfl)).2.2.2.2
      (bytesOf "b") (by decide)⟩

/-! ## Prefix seek -/

theorem memcmp_eq_zero (a b : Bytes) (n : Nat) (ha : n ≤ a.length) (hb : n ≤ b.length) :
    memcmp a b n = 0 ↔ a.take n = b.take n := by
  induction n generalizing a b with
  | zero => simp [memcmp]
  | succ n ih =>
    cases a with
    | nil => simp at ha
    | cons x xs =>
      cases b with
      | nil => simp at hb
      | cons y ys =>
        simp only [List.length_cons, Nat.add_le_add_iff_right] at ha hb
        simp only [memcmp, List.take_succ_cons, List.cons.injEq]
        split_ifs with h1 h2
        · constructor
          · intro h; simp at h
          · rintro ⟨hxy, _⟩; omega
        · constructor
          · intro h; simp at h
          · rintro ⟨hxy, _⟩; omega
        · have hxy : x = y := by omega
          simp [hxy, ih xs ys ha hb]

/-- The test of `lmdbQ__cursor_seek_prefix` holds exactly when the first
`pfx.length` bytes of the key are the bytes of `pfx`. -/
theorem prefix_test (key pfx : Bytes) :
    (key.length ≥ pfx.length ∧ memcmp key pfx pfx.length = 0)
      ↔ (pfx.length ≤ key.length ∧ key.take pfx.length = pfx) := by
  constructor
  · rintro ⟨hl, hm⟩
    refine ⟨hl, ?_⟩
    have := (memcmp_eq_zero key pfx pfx.length hl (le_refl _)).1 hm
    simpa using this
  · rintro ⟨hl, ht⟩
    refine ⟨hl, (memcmp_eq_zero key pfx pfx.length hl (le_refl _)).2 ?_⟩
    simpa using ht

/-- C1: prefix seek.  For every engine, engine state, cursor and prefix,
`lmdbQ__cursor_seek_prefix` makes exactly one engine call, the
greater-or-equal seek `mdb_cursor_get(cursor, prefix, MDB_SET_RANGE)`, and
returns the landed (key, value) pair if and only if that seek succeeded and the
first `len(prefix)` bytes of the landed key are the bytes of `prefix`; a pair it
returns is always the landed pair; when the seek finds no key, or lands on a key
that does not begin with `prefix`, it returns absent.  On the reference engine
with keys "user:1", "user:2", "zz": seekPrefix("user:") returns the pair of
"user:1"; seek("nomatch") lands on "user:1" and seekPrefix("nomatch") returns
absent. -/
theorem seek_prefix_returns_only_prefix_matches {σ : Type} (h : Call → σ → Resp × σ) (s : σ)
    (cursor : Int) (pfx : Bytes) :
    (( lmdbQ__cursor_seek_prefix cursor pfx).run h s).events
        = [(.mdb_cursor_get cursor pfx .MDB_SET_RANGE,
            (h (.mdb_cursor_get cursor pfx .MDB_SET_RANGE) s).1)]
    ∧ ((( lmdbQ__cursor_seek_prefix cursor pfx).run h s).result
          = .ok (some ((h (.mdb_cursor_get cursor pfx .MDB_SET_RANGE) s).1.key,
                       (h (.mdb_cursor_get cursor pfx .MDB_SET_RANGE) s).1.val))
        ↔ ((h (.mdb_cursor_get cursor pfx .MDB_SET_RANGE) s).1.rc = 0
            ∧ pfx.length ≤ (h (.mdb_cursor_get cursor pfx .MDB_SET_RANGE) s).1.key.length
            ∧ (h (.mdb_cursor_get cursor pfx .MDB_SET_RANGE) s).1.key.take pfx.length = pfx))
    ∧ (∀ kv, (( lmdbQ__cursor_seek_prefix cursor pfx).run h s).result = .ok (some kv) →
        kv = ((h (.mdb_cursor_get cursor pfx .MDB_SET_RANGE) s).1.key,
              (h (.mdb_cursor_get cursor pfx .MDB_SET_RANGE) s).1.val))
    ∧ ((h (.mdb_cursor_get cursor pfx .MDB_SET_RANGE) s).1.rc = MDB_NOTFOUND →
        (( lmdbQ__cursor_seek_prefix cursor pfx).run h s).result = .ok none)
    ∧ ((h (.mdb_cursor_get cursor pfx .MDB_SET_RANGE) s).1.rc = 0 →
        ¬ (pfx.length ≤ (h (.mdb_cursor_get cursor pfx .MDB_SET_RANGE) s).1.key.length
            ∧ (h (.mdb_cursor_get cursor pfx .MDB_SET_RANGE) s).1.key.take pfx.length = pfx) →
        (( lmdbQ__cursor_seek_prefix cursor pfx).run h s).result = .ok none)
    ∧ (( lmdbQ__cursor_seek_prefix 3 (bytesOf "user:")).run lmdb demo).result
        = .ok (some (bytesOf "user:1", bytesOf "a"))
    ∧ ((lmdbQ__cursor_seek 3 (bytesOf "nomatch")).run lmdb demo).result
        = .ok (some (bytesOf "user:1", bytesOf "a"))
    ∧ (( lmdbQ__cursor_seek_prefix 3 (bytesOf "nomatch")).run lmdb demo).result = .ok none := by
  refine ⟨?_, ?_, ?_, ?_, ?_, by rfl, by rfl, by rfl⟩
  all_goals
    generalize ho : ( lmdbQ__cursor_seek_prefix cursor pfx).run h s = o
    simp only [ lmdbQ__cursor_seek_prefix, Prog.run, run_ite, prefix_test] at ho
    generalize h (.mdb_cursor_get cursor pfx .MDB_SET_RANGE) s = p at ho ⊢
    obtain ⟨r, s1⟩ := p
    dsimp only at ho ⊢
    split_ifs at ho with h1 h2 h3 <;> subst ho <;> simp_all [MDB_NOTFOUND]

/-! ## Cursor position -/

theorem find_replace_self {β : Type} (h : Int) (b b0 : β) (l : List (Int × β))
    (hf : find h l = some b0) : find h (replace h b l) = some b := by
  induction l with
  | nil => simp [find] at hf
  | cons e rest ih =>
    obtain ⟨h', b'⟩ := e
    simp only [find] at hf
    simp only [replace]
    split_ifs at hf ⊢ with h1
    · simp [find]
    · simp [find, h1, ih hf]

theorem lmdb_cursor_get (m : LMDB) (c : Int) (key : Bytes) (op : MDB_cursor_op) :
    ((lmdb (.mdb_cursor_get c key op) m).1.rc ≠ 0
      ∧ (lmdb (.mdb_cursor_get c key op) m).1.rc ≠ MDB_NOTFOUND)
    ∨ (∃ cr t, find c m.cursors = some cr ∧ find cr.txn m.txns = some t
      ∧ lmdb (.mdb_cursor_get c key op) m
          = match navigate t.view cr.pos key op with
            | none =>
              (status MDB_NOTFOUND,
               { advance m with cursors := replace c { cr with pos := none } m.cursors })
            | some (k, v) =>
              (⟨0, 0, 0, k, v⟩,
               { advance m with cursors := replace c { cr with pos := some k } m.cursors })) := by
  simp only [lmdb, fallible, if_true]
  cases hp : pending m with
  | some rc =>
    left
    simp [lmdbFail, status, pending_ne_zero m rc hp, pending_ne_notfound m rc hp]
  | none =>
    simp only [lmdbOk]
    cases hfc : find c (advance m).cursors with
    | none => left; simp [status, EINVAL, MDB_NOTFOUND]
    | some cr =>
      simp only
      cases hft : find cr.txn (advance m).txns with
      | none => left; simp [status, EINVAL, MDB_NOTFOUND]
      | some t =>
        right
        refine ⟨cr, t, by simpa [advance] using hfc, by simpa [advance] using hft, ?_⟩
        cases hn : navigate t.view cr.pos key op with
        | none => simp [advance, hn]
        | some kv => obtain ⟨k, v⟩ := kv; simp [advance, hn]

theorem storeGet_isSome_of_mem (st : Store) (k v : Bytes) (hm : (k, v) ∈ st) :
    (storeGet st k).isSome = true := by
  induction st with
  | nil => simp at hm
  | cons e rest ih =>
    obtain ⟨k', v'⟩ := e
    simp only [storeGet]
    split_ifs with h1
    · rfl
    · rcases List.mem_cons.1 hm with heq | hmem
      · simp only [Prod.mk.injEq] at heq
        exact absurd heq.1.symm h1
      · exact ih hmem

theorem navigate_mem (view : Store) (pos : Option Bytes) (key : Bytes) (op : MDB_cursor_op)
    (e : Bytes × Bytes) (hn : navigate view pos key op = some e) : e ∈ view := by
  cases op with
  | MDB_FIRST => exact List.mem_of_mem_head? (by simpa [navigate, storeFirst] using hn)
  | MDB_LAST => exact List.mem_of_getLast?_eq_some (by simpa [navigate, storeLast] using hn)
  | MDB_NEXT =>
    cases pos with
    | none => exact List.mem_of_mem_head? (by simpa [navigate, storeFirst] using hn)
    | some k => exact List.mem_of_find?_eq_some (by simpa [navigate, storeNext] using hn)
  | MDB_PREV =>
    cases pos with
    | none => exact List.mem_of_getLast?_eq_some (by simpa [navigate, storeLast] using hn)
    | some k =>
      have h1 : (view.filter (fun e => keyLt e.1 k)).getLast? = some e := by
        simpa [navigate, storePrev] using hn
      exact List.mem_of_mem_filter (List.mem_of_getLast?_eq_some h1)
  | MDB_SET_RANGE => exact List.mem_of_find?_eq_some (by simpa [navigate, storeSeek] using hn)

/-- The outcome of one `mdb_cursor_get` on the reference engine: a failure, a
miss, or a hit that leaves the cursor on the returned key, which is an entry of
the transaction's view. -/
theorem cursor_get_cases (m : LMDB) (c : Int) (key : Bytes) (op : MDB_cursor_op) :
    ((lmdb (.mdb_cursor_get c key op) m).1.rc ≠ 0
      ∧ (lmdb (.mdb_cursor_get c key op) m).1.rc ≠ MDB_NOTFOUND)
    ∨ (lmdb (.mdb_cursor_get c key op) m).1.rc = MDB_NOTFOUND
    ∨ (∃ k v cr t, (lmdb (.mdb_cursor_get c key op) m).1 = ⟨0, 0, 0, k, v⟩
      ∧ find c (lmdb (.mdb_cursor_get c key op) m).2.cursors = some cr
      ∧ cr.pos = some k
      ∧ find cr.txn (lmdb (.mdb_cursor_get c key op) m).2.txns = some t
      ∧ (storeGet t.view k).isSome = true
      ∧ (lmdb (.mdb_cursor_get c key op) m).2.faults = m.faults.tail) := by
  rcases lmdb_cursor_get m c key op with hl | ⟨cr, t, hfc, hft, heq⟩
  · exact Or.inl hl
  · right
    cases hn : navigate t.view cr.pos key op with
    | none =>
      left
      rw [heq, hn]
      rfl
    | some kv =>
      obtain ⟨k, v⟩ := kv
      right
      rw [heq, hn]
      refine ⟨k, v, { cr with pos := some k }, t, rfl, find_replace_self c _ cr _ hfc, rfl,
        ?_, ?_, ?_⟩
      · simpa [advance] using hft
      · exact storeGet_isSome_of_mem _ _ v (navigate_mem _ _ _ _ _ hn)
      · simp [advance]

/-- On the reference engine, with no failure pending, a cursor delete on a
cursor positioned on an entry of a write transaction returns and removes that
entry from the transaction's view. -/
theorem cursor_delete_positioned (s : LMDB) (c : Int) (cr : CurRec) (t : TxnRec) (k : Bytes)
    (hp : pending s = none) (hf : find c s.cursors = some cr) (hpos : cr.pos = some k)
    (ht : find cr.txn s.txns = some t) (hw : t.rdonly = false)
    (hg : (storeGet t.view k).isSome = true) :
    ((lmdbQ__cursor_delete c).run lmdb s).result = .ok ()
    ∧ find cr.txn ((lmdbQ__cursor_delete c).run lmdb s).state.txns
        = some { t with view := storeDel t.view k } := by
  have hf2 : find c (advance s).cursors = some cr := by simpa [advance] using hf
  have ht2 : find cr.txn (advance s).txns = some t := by simpa [advance] using ht
  obtain ⟨v, hv⟩ := Option.isSome_iff_exists.1 hg
  have key : lmdb (.mdb_cursor_del c 0) s
      = (status 0,
         { advance s with
           txns := replace cr.txn { t with view := storeDel t.view k } s.txns }) := by
    simp only [lmdb, fallible, if_true, hp, lmdbOk, hf2, ht2, hw, hpos, hv]
    simp [advance]
  simp only [lmdbQ__cursor_delete, Prog.run, run_ite, key, status]
  simp [find_replace_self cr.txn _ t s.txns ht]

/-- C8, counterexample: on the reference engine with keys "user:1", "user:2",
"zz", `lmdbQ__cursor_seek_prefix(cursor, "nomatch")` returns absent and leaves
the cursor positioned on "user:1"; the immediately following
`lmdbQ__cursor_delete` returns without error and removes "user:1" from the
transaction's view. -/
theorem seek_prefix_miss_leaves_cursor_positioned :
    (( lmdbQ__cursor_seek_prefix 3 (bytesOf "nomatch")).run lmdb demo).result = .ok none
    ∧ find 3 (( lmdbQ__cursor_seek_prefix 3 (bytesOf "nomatch")).run lmdb demo).state.cursors
        = some ⟨2, some (bytesOf "user:1")⟩
    ∧ ((lmdbQ__cursor_delete 3).run lmdb
          (( lmdbQ__cursor_seek_prefix 3 (bytesOf "nomatch")).run lmdb demo).state).result
        = .ok ()
    ∧ (find 2 (( lmdbQ__cursor_seek_prefix 3 (bytesOf "nomatch")).run lmdb demo).state.txns).map
          (fun t => storeGet t.view (bytesOf "user:1")) = some (some (bytesOf "a"))
    ∧ (find 2 ((lmdbQ__cursor_delete 3).run lmdb
          (( lmdbQ__cursor_seek_prefix 3 (bytesOf "nomatch")).run lmdb demo).state).state.txns).map
          (fun t => storeGet t.view (bytesOf "user:1")) = some none := by
  refine ⟨by rfl, by rfl, by rfl, by rfl, by rfl⟩

theorem navBody_eq (c : Int) (key : Bytes) :
    lmdbQ__cursor_first c = navBody c [] .MDB_FIRST
    ∧ lmdbQ__cursor_last c = navBody c [] .MDB_LAST
    ∧ lmdbQ__cursor_next c = navBody c [] .MDB_NEXT
    ∧ lmdbQ__cursor_prev c = navBody c [] .MDB_PREV
    ∧ lmdbQ__cursor_seek c key = navBody c key .MDB_SET_RANGE :=
  ⟨rfl, rfl, rfl, rfl, rfl⟩

/-- One navigation call on the reference engine: a returned pair leaves the
cursor on its key. -/
theorem navBody_model (m : LMDB) (c : Int) (key : Bytes) (op : MDB_cursor_op) :
    ∀ kv, ((navBody c key op).run lmdb m).result = .ok (some kv) →
      positionedOn ((navBody c key op).run lmdb m).state c kv.1 := by
  generalize ho : (navBody c key op).run lmdb m = o
  simp only [navBody, Prog.run, run_ite] at ho
  rcases cursor_get_cases m c key op with ⟨h0, h1⟩ | h1 | ⟨k, v, cr, t, hr, hfc, hpos, _⟩
  · simp only [h0, h1, if_false, ne_eq, not_false_eq_true, if_true] at ho
    subst ho
    simp
  · simp only [h1, if_true] at ho
    subst ho
    simp
  · simp only [hr, MDB_NOTFOUND] at ho
    simp at ho
    subst ho
    simpa using (positionedOn_iff _ _ _).2 ⟨cr, hfc, hpos⟩

theorem seek_prefix_model (m : LMDB) (c : Int) (pfx : Bytes) :
    (∀ kv, (( lmdbQ__cursor_seek_prefix c pfx).run lmdb m).result = .ok (some kv) →
      positionedOn (( lmdbQ__cursor_seek_prefix c pfx).run lmdb m).state c kv.1)
    ∧ ((( lmdbQ__cursor_seek_prefix c pfx).run lmdb m).result = .ok none →
      (lmdb (.mdb_cursor_get c pfx .MDB_SET_RANGE) m).1.rc = MDB_NOTFOUND
      ∨ (∃ k v cr t, (lmdb (.mdb_cursor_get c pfx .MDB_SET_RANGE) m).1 = ⟨0, 0, 0, k, v⟩
        ∧ ¬ (pfx.length ≤ k.length ∧ k.take pfx.length = pfx)
        ∧ find c (( lmdbQ__cursor_seek_prefix c pfx).run lmdb m).state.cursors = some cr
        ∧ cr.pos = some k
        ∧ find cr.txn (( lmdbQ__cursor_seek_prefix c pfx).run lmdb m).state.txns = some t
        ∧ (storeGet t.view k).isSome = true
        ∧ (( lmdbQ__cursor_seek_prefix c pfx).run lmdb m).state.faults = m.faults.tail)) := by
  generalize ho : ( lmdbQ__cursor_seek_prefix c pfx).run lmdb m = o
  simp only [ lmdbQ__cursor_seek_prefix, Prog.run, run_ite, prefix_test] at ho
  rcases cursor_get_cases m c pfx .MDB_SET_RANGE with
    ⟨h0, h1⟩ | h1 | ⟨k, v, cr, t, hr, hfc, hpos, hft, hg, hfl⟩
  · simp only [h0, h1, if_false, ne_eq, not_false_eq_true, if_true] at ho
    subst ho
    simp
  · simp only [h1, if_true] at ho
    subst ho
    exact ⟨by simp, fun _ => Or.inl h1⟩
  · simp only [hr, MDB_NOTFOUND] at ho
    simp only [Int.reduceNeg, reduceCtorEq, OfNat.zero_ne_ofNat, if_false, ne_eq,
      not_true_eq_false] at ho
    by_cases hpre : pfx.length ≤ k.length ∧ k.take pfx.length = pfx
    · simp only [hpre, and_self, if_true] at ho
      subst ho
      simpa using (positionedOn_iff _ _ _).2 ⟨cr, hfc, hpos⟩
    · simp only [hpre, if_false] at ho
      subst ho
      refine ⟨by simp, fun _ => Or.inr ⟨k, v, cr, t, hr, hpre, ?_, hpos, ?_, hg, ?_⟩⟩
      · simpa using hfc
      · simpa using hft
      · simpa using hfl

/-- C8, amended: cursor position after navigation.  For every engine and
engine state, each navigation function (first, last, next, prev, seek,
seekPrefix) makes exactly one engine call, its `mdb_cursor_get`, and ends in
the state in which that call left the engine, whether it returns a pair or
absent: the binding never moves a cursor back to Unpositioned, the cursor is
where the engine's navigation left it.  Likewise `lmdbQ__cursor_delete` makes
exactly one call, `mdb_cursor_del`, returns exactly when its status is 0 and
raises with the message of that status otherwise, so whether a delete that
follows a miss removes an entry or is an error is the engine's answer alone.
On the reference engine: a navigation call that returns a pair leaves the
cursor positioned on that pair's key; a seekPrefix that returns absent either
found no key or landed on a key that does not begin with the prefix, and then
the cursor is positioned on that landed key, which is an entry of the
transaction's view, and, with no engine failure scripted and a write
transaction, the immediately following cursor delete returns without error and
removes that entry. -/
theorem cursor_position_after_navigation {σ : Type} (h : Call → σ → Resp × σ) (s : σ)
    (m : LMDB) (c : Int) (key : Bytes) :
    (onlyCall h s (.mdb_cursor_get c [] .MDB_FIRST) ((lmdbQ__cursor_first c).run h s)
      ∧ onlyCall h s (.mdb_cursor_get c [] .MDB_LAST) ((lmdbQ__cursor_last c).run h s)
      ∧ onlyCall h s (.mdb_cursor_get c [] .MDB_NEXT) ((lmdbQ__cursor_next c).run h s)
      ∧ onlyCall h s (.mdb_cursor_get c [] .MDB_PREV) ((lmdbQ__cursor_prev c).run h s)
      ∧ onlyCall h s (.mdb_cursor_get c key .MDB_SET_RANGE) ((lmdbQ__cursor_seek c key).run h s)
      ∧ onlyCall h s (.mdb_cursor_get c key .MDB_SET_RANGE)
          (( lmdbQ__cursor_seek_prefix c key).run h s))
    ∧ (onlyCall h s (.mdb_cursor_del c 0) ((lmdbQ__cursor_delete c).run h s)
      ∧ (((lmdbQ__cursor_delete c).run h s).result = .ok ()
          ↔ (h (.mdb_cursor_del c 0) s).1.rc = 0)
      ∧ (((lmdbQ__cursor_delete c).run h s).result
            = .error ⟨mdb_strerror (h (.mdb_cursor_del c 0) s).1.rc⟩
          ↔ (h (.mdb_cursor_del c 0) s).1.rc ≠ 0))
    ∧ (∀ p ∈ [lmdbQ__cursor_first c, lmdbQ__cursor_last c, lmdbQ__cursor_next c,
              lmdbQ__cursor_prev c, lmdbQ__cursor_seek c key, lmdbQ__cursor_seek_prefix c key],
        ∀ kv, (p.run lmdb m).result = .ok (some kv) →
          positionedOn (p.run lmdb m).state c kv.1)
    ∧ ((( lmdbQ__cursor_seek_prefix c key).run lmdb m).result = .ok none →
        (lmdb (.mdb_cursor_get c key .MDB_SET_RANGE) m).1.rc = MDB_NOTFOUND
        ∨ (∃ k v cr t,
            (lmdb (.mdb_cursor_get c key .MDB_SET_RANGE) m).1 = ⟨0, 0, 0, k, v⟩
            ∧ ¬ (key.length ≤ k.length ∧ k.take key.length = key)
            ∧ positionedOn (( lmdbQ__cursor_seek_prefix c key).run lmdb m).state c k
            ∧ find c (( lmdbQ__cursor_seek_prefix c key).run lmdb m).state.cursors = some cr
            ∧ find cr.txn (( lmdbQ__cursor_seek_prefix c key).run lmdb m).state.txns = some t
            ∧ (storeGet t.view k).isSome = true
            ∧ (calm m → t.rdonly = false →
                ((lmdbQ__cursor_delete c).run lmdb
                    (( lmdbQ__cursor_seek_prefix c key).run lmdb m).state).result = .ok ()
                ∧ find cr.txn ((lmdbQ__cursor_delete c).run lmdb
                    (( lmdbQ__cursor_seek_prefix c key).run lmdb m).state).state.txns
                  = some { t with view := storeDel t.view k }
                ∧ storeGet (storeDel t.view k) k = none))) := by
  refine ⟨⟨?_, ?_, ?_, ?_, ?_, ?_⟩, ?_, ?_, ?_⟩
  · simp only [onlyCall, lmdbQ__cursor_first, Prog.run, run_ite]
    split_ifs <;> simp
  · simp only [onlyCall, lmdbQ__cursor_last, Prog.run, run_ite]
    split_ifs <;> simp
  · simp only [onlyCall, lmdbQ__cursor_next, Prog.run, run_ite]
    split_ifs <;> simp
  · simp only [onlyCall, lmdbQ__cursor_prev, Prog.run, run_ite]
    split_ifs <;> simp
  · simp only [onlyCall, lmdbQ__cursor_seek, Prog.run, run_ite]
    split_ifs <;> simp
  · simp only [onlyCall, lmdbQ__cursor_seek_prefix, Prog.run, run_ite]
    split_ifs <;> simp
  · simp only [onlyCall, lmdbQ__cursor_delete, Prog.run, run_ite]
    by_cases h0 : (h (.mdb_cursor_del c 0) s).1.rc = 0
    · simp [h0]
    · simp [h0]
  · intro p hp kv hres
    simp only [List.mem_cons, List.mem_singleton, List.not_mem_nil, or_false] at hp
    rcases hp with hp | hp | hp | hp | hp | hp <;> subst hp
    · exact navBody_model m c [] .MDB_FIRST kv hres
    · exact navBody_model m c [] .MDB_LAST kv hres
    · exact navBody_model m c [] .MDB_NEXT kv hres
    · exact navBody_model m c [] .MDB_PREV kv hres
    · exact navBody_model m c key .MDB_SET_RANGE kv hres
    · exact (seek_prefix_model m c key).1 kv hres
  · intro hres
    rcases (seek_prefix_model m c key).2 hres with
      h1 | ⟨k, v, cr, t, hr, hpre, hfc, hpos, hft, hg, hfl⟩
    · exact Or.inl h1
    · right
      refine ⟨k, v, cr, t, hr, hpre, (positionedOn_iff _ _ _).2 ⟨cr, hfc, hpos⟩, hfc, hft, hg,
        fun hc hw => ?_⟩
      have hc2 : calm (( lmdbQ__cursor_seek_prefix c key).run lmdb m).state = true :=
        calm_of_tail m _ hc hfl
      have hd := cursor_delete_positioned _ c cr t k (pending_of_calm _ hc2) hfc hpos hft hw hg
      exact ⟨hd.1, hd.2, storeGet_storeDel_self _ _⟩

/-! ## The convenience operations as compositions -/

theorem bind_ite {α β : Type} (c : Prop) [Decidable c] (a b : Prog α) (f : α → Prog β) :
    Prog.bind (if c then a else b) f = if c then Prog.bind a f else Prog.bind b f := by
  split <;> rfl

theorem tryCatch_ite {α : Type} (c : Prop) [Decidable c] (a b : Prog α)
    (f : LMDBError → Prog α) :
    Prog.tryCatch (if c then a else b) f
      = if c then Prog.tryCatch a f else Prog.tryCatch b f := by
  split <;> rfl

theorem get_eq_composed (env dbi : Int) (key : Bytes) :
    lmdbQ__get env dbi key = get_composed env dbi key := by
  simp only [lmdbQ__get, get_composed, lmdbQ__txn_begin_read, lmdbQ__txn_get, lmdbQ__txn_abort,
    Prog.bind, Prog.tryCatch, bind_ite, tryCatch_ite]

theorem put_eq_composed (env dbi : Int) (key value : Bytes) :
    lmdbQ__put env dbi key value = put_composed env dbi key value := by
  simp only [lmdbQ__put, put_composed, lmdbQ__txn_begin_write, lmdbQ__txn_put, lmdbQ__txn_abort,
    lmdbQ__txn_commit, Prog.bind, Prog.tryCatch, bind_ite, tryCatch_ite]

theorem delete_eq_composed (env dbi : Int) (key : Bytes) :
    lmdbQ__delete env dbi key = delete_composed env dbi key := by
  simp only [lmdbQ__delete, delete_composed, lmdbQ__txn_begin_write, lmdbQ__txn_delete,
    lmdbQ__txn_abort, lmdbQ__txn_commit, Prog.bind, Prog.tryCatch, bind_ite, tryCatch_ite]
  simp

/-- C10: the convenience operations are compositions of the explicit
transaction operations.  As programs, `lmdbQ__get` is `beginRead; txn_get;
abort`, `lmdbQ__put` is `beginWrite; txn_put; commit` with abort instead of
commit when `txn_put` raises, and `lmdbQ__delete` is `beginWrite; txn_delete;
commit` when it returned true and abort when it returned false or raised; so
for every engine and engine state each pair has the same result or error, the
same final engine state and the same calls.  Whenever begin succeeded, the run
contains exactly one call that ends a transaction, a commit or an abort of the
transaction that begin returned. -/
theorem convenience_ops_are_compositions {σ : Type} (h : Call → σ → Resp × σ) (s : σ)
    (env dbi : Int) (key value : Bytes) :
    (lmdbQ__get env dbi key = get_composed env dbi key
      ∧ lmdbQ__put env dbi key value = put_composed env dbi key value
      ∧ lmdbQ__delete env dbi key = delete_composed env dbi key)
    ∧ ((lmdbQ__get env dbi key).run h s = (get_composed env dbi key).run h s
      ∧ (lmdbQ__put env dbi key value).run h s = (put_composed env dbi key value).run h s
      ∧ (lmdbQ__delete env dbi key).run h s = (delete_composed env dbi key).run h s)
    ∧ ((h (.mdb_txn_begin env MDB_RDONLY) s).1.rc = 0 →
        (((lmdbQ__get env dbi key).run h s).events.map Prod.fst).filter endsTxn
          = [.mdb_txn_abort (h (.mdb_txn_begin env MDB_RDONLY) s).1.handle])
    ∧ ((h (.mdb_txn_begin env 0) s).1.rc = 0 →
        ((((lmdbQ__put env dbi key value).run h s).events.map Prod.fst).filter endsTxn
            = [.mdb_txn_commit (h (.mdb_txn_begin env 0) s).1.handle]
          ∨ (((lmdbQ__put env dbi key value).run h s).events.map Prod.fst).filter endsTxn
            = [.mdb_txn_abort (h (.mdb_txn_begin env 0) s).1.handle])
        ∧ ((((lmdbQ__delete env dbi key).run h s).events.map Prod.fst).filter endsTxn
            = [.mdb_txn_commit (h (.mdb_txn_begin env 0) s).1.handle]
          ∨ (((lmdbQ__delete env dbi key).run h s).events.map Prod.fst).filter endsTxn
            = [.mdb_txn_abort (h (.mdb_txn_begin env 0) s).1.handle])) := by
  refine ⟨⟨get_eq_composed env dbi key, put_eq_composed env dbi key value,
    delete_eq_composed env dbi key⟩, ⟨?_, ?_, ?_⟩, ?_, ?_⟩
  · rw [get_eq_composed]
  · rw [put_eq_composed]
  · rw [delete_eq_composed]
  · intro hb
    generalize ho : (lmdbQ__get env dbi key).run h s = o
    simp only [lmdbQ__get, Prog.run, run_ite] at ho
    generalize h (.mdb_txn_begin env MDB_RDONLY) s = p1 at ho hb ⊢
    obtain ⟨r1, s1⟩ := p1
    dsimp only at ho hb ⊢
    generalize h (.mdb_get r1.handle (cast_MDB_dbi dbi) key) s1 = p2 at ho
    obtain ⟨r2, s2⟩ := p2
    dsimp only at ho
    split_ifs at ho <;> subst ho <;> simp_all [endsTxn]
  · intro hb
    constructor
    · generalize ho : (lmdbQ__put env dbi key value).run h s = o
      simp only [lmdbQ__put, Prog.run, run_ite] at ho
      generalize h (.mdb_txn_begin env 0) s = p1 at ho hb ⊢
      obtain ⟨r1, s1⟩ := p1
      dsimp only at ho hb ⊢
      generalize h (.mdb_put r1.handle (cast_MDB_dbi dbi) key value 0) s1 = p2 at ho
      obtain ⟨r2, s2⟩ := p2
      dsimp only at ho
      split_ifs at ho <;> subst ho <;> simp_all [endsTxn]
    · generalize ho : (lmdbQ__delete env dbi key).run h s = o
      simp only [lmdbQ__delete, Prog.run, run_ite] at ho
      generalize h (.mdb_txn_begin env 0) s = p1 at ho hb ⊢
      obtain ⟨r1, s1⟩ := p1
      dsimp only at ho hb ⊢
      generalize h (.mdb_del r1.handle (cast_MDB_dbi dbi) key) s1 = p2 at ho
      obtain ⟨r2, s2⟩ := p2
      dsimp only at ho
      split_ifs at ho <;> subst ho <;> simp_all [endsTxn]

/-! ## Failure atomicity of the convenience put -/

/-- C4: failure atomicity of the convenience put.  For every engine and engine
state, `lmdbQ__put` raises if and only if the engine's transaction begin, put
or commit returned a status other than 0, and the error carries the message of
that status; when begin succeeded and put failed, the calls made are begin,
put and then abort of the transaction, before the error is raised.  On the
reference engine, for every state and failure script, after a `lmdbQ__put` that
raised the committed store is what it was before the call and the live
transactions are those that were live before it. -/
theorem put_failure_is_atomic {σ : Type} (h : Call → σ → Resp × σ) (s : σ) (m : LMDB)
    (env dbi : Int) (k v : Bytes) :
    ((∃ e, ((lmdbQ__put env dbi k v).run h s).result = .error e)
      ↔ ∃ ev ∈ ((lmdbQ__put env dbi k v).run h s).events, putChecks ev.1 = true ∧ ev.2.rc ≠ 0)
    ∧ (∀ e, ((lmdbQ__put env dbi k v).run h s).result = .error e →
        ∃ ev ∈ ((lmdbQ__put env dbi k v).run h s).events,
          putChecks ev.1 = true ∧ ev.2.rc ≠ 0 ∧ e = ⟨mdb_strerror ev.2.rc⟩)
    ∧ ((h (.mdb_txn_begin env 0) s).1.rc = 0 →
        (h (.mdb_put (h (.mdb_txn_begin env 0) s).1.handle (cast_MDB_dbi dbi) k v 0)
            (h (.mdb_txn_begin env 0) s).2).1.rc ≠ 0 →
        ((lmdbQ__put env dbi k v).run h s).events.map Prod.fst
          = [.mdb_txn_begin env 0,
             .mdb_put (h (.mdb_txn_begin env 0) s).1.handle (cast_MDB_dbi dbi) k v 0,
             .mdb_txn_abort (h (.mdb_txn_begin env 0) s).1.handle]
        ∧ ((lmdbQ__put env dbi k v).run h s).result
          = .error ⟨mdb_strerror
              (h (.mdb_put (h (.mdb_txn_begin env 0) s).1.handle (cast_MDB_dbi dbi) k v 0)
                (h (.mdb_txn_begin env 0) s).2).1.rc⟩)
    ∧ (∀ e, ((lmdbQ__put env dbi k v).run lmdb m).result = .error e →
        ((lmdbQ__put env dbi k v).run lmdb m).state.store = m.store
        ∧ ((lmdbQ__put env dbi k v).run lmdb m).state.txns = m.txns) := by
  refine ⟨?_, ?_, ?_, ?_⟩
  · generalize ho : (lmdbQ__put env dbi k v).run h s = o
    simp only [lmdbQ__put, Prog.run, run_ite] at ho
    generalize h (.mdb_txn_begin env 0) s = p1 at ho
    obtain ⟨r1, s1⟩ := p1
    dsimp only at ho
    generalize h (.mdb_put r1.handle (cast_MDB_dbi dbi) k v 0) s1 = p2 at ho
    obtain ⟨r2, s2⟩ := p2
    dsimp only at ho
    generalize h (.mdb_txn_commit r1.handle) s2 = p3 at ho
    obtain ⟨r3, s3⟩ := p3
    dsimp only at ho
    split_ifs at ho <;> subst ho <;> simp [putChecks] <;> simp_all
  · generalize ho : (lmdbQ__put env dbi k v).run h s = o
    simp only [lmdbQ__put, Prog.run, run_ite] at ho
    generalize h (.mdb_txn_begin env 0) s = p1 at ho
    obtain ⟨r1, s1⟩ := p1
    dsimp only at ho
    generalize h (.mdb_put r1.handle (cast_MDB_dbi dbi) k v 0) s1 = p2 at ho
    obtain ⟨r2, s2⟩ := p2
    dsimp only at ho
    generalize h (.mdb_txn_commit r1.handle) s2 = p3 at ho
    obtain ⟨r3, s3⟩ := p3
    dsimp only at ho
    split_ifs at ho <;> subst ho <;> simp [putChecks] <;> simp_all
  · intro hb hp
    generalize ho : (lmdbQ__put env dbi k v).run h s = o
    simp only [lmdbQ__put, Prog.run, run_ite] at ho
    generalize h (.mdb_txn_begin env 0) s = p1 at ho hb hp ⊢
    obtain ⟨r1, s1⟩ := p1
    dsimp only at ho hb hp ⊢
    generalize h (.mdb_put r1.handle (cast_MDB_dbi dbi) k v 0) s1 = p2 at ho hp ⊢
    obtain ⟨r2, s2⟩ := p2
    dsimp only at ho hp ⊢
    split_ifs at ho <;> subst ho <;> simp_all
  · intro e he
    rcases put_model m env dbi k v with ⟨_, h1, h2⟩ | ⟨hok, _⟩
    · exact ⟨h1, h2⟩
    · rw [hok] at he
      cases he

end ActonLmdb
